import Mathlib

/-!
# Samsung Galaxy S23 Device Manager: command runner and device scan

A shallow embedding of `ExecuteCommand`, `DetectDevices`, `AddLog` and the `WM_UPDATE_LOG`
case of `WndProc` of `frpunlock.cpp`.

* A `std::string` / `char` buffer is a `List Char`.
* A `const char*` is read up to its first NUL (`cstr`), as `snprintf("%s")`, the
  `std::string += const char*` append and `LB_ADDSTRING` do.
* The operating system is an explicit parameter: what `CreatePipe`, `CreateProcessA` and the
  successive `ReadFile` calls answer (`OsReply`), one reply per call site (`World`).
* `size_t` is 64 bits wide; `std::string::npos` is `2^64 - 1`.
* The log goes through the message queue of the one thread the program has: `AddLog` posts,
  the message loop dispatches (`LogState`, `LogEvent`).
-/

namespace FrpUnlock

/-- A byte string (`std::string`, or the bytes a `char*` points at). -/
abbrev Str := List Char

/-! ## `std::string` and C string primitives -/

/-- The C string a `char*` denotes: the bytes before the first NUL. -/
def cstr (s : Str) : Str := s.takeWhile (fun c => c != '\x00')

/-- `strlen`. -/
def strlen (s : Str) : Nat := (cstr s).length

/-- `std::string::npos` for a 64-bit `size_t`. -/
def npos : Nat := 2 ^ 64 - 1

/-- A `size_t` result of a search: the index found, or `npos`. -/
def toSizeT : Option Nat → Nat
  | some i => i
  | none => npos

/-- `s.find(pat)`: index of the first occurrence of `pat` in `s`, `none` for `npos`. -/
def find (pat : Str) : Str → Option Nat
  | [] => if pat.isPrefixOf [] then some 0 else none
  | c :: cs => if pat.isPrefixOf (c :: cs) then some 0 else (find pat cs).map (· + 1)

/-- `s.find_first_not_of(set)`: index of the first character not in `set`. -/
def find_first_not_of (set : Str) : Str → Option Nat
  | [] => none
  | c :: cs => if set.contains c then (find_first_not_of set cs).map (· + 1) else some 0

/-- `s.find_last_not_of(set)`: index of the last character not in `set`. -/
def find_last_not_of (set : Str) : Str → Option Nat
  | [] => none
  | c :: cs =>
    match find_last_not_of set cs with
    | some i => some (i + 1)
    | none => if set.contains c then none else some 0

/-- `s.substr(pos, n)` for `pos ≤ s.size()`. -/
def substr (s : Str) (pos n : Nat) : Str := (s.drop pos).take n

/-- `s.erase(pos)`: drop everything from index `pos` on. -/
def erase (s : Str) (pos : Nat) : Str := s.take pos

/-- `while (std::getline(stream, line))`: the successive values of `line`. A final line needs
no terminating line feed; at end of input with nothing extracted the loop stops. -/
def getlines : Str → List Str
  | [] => []
  | c :: cs =>
    if c = '\n' then [] :: getlines cs
    else
      match getlines cs with
      | [] => [[c]]
      | l :: ls => (c :: l) :: ls

/-! ## `ExecuteCommand` -/

/-- What the operating system answers during one `ExecuteCommand` call. -/
structure OsReply where
  /-- `CreatePipe` succeeds. -/
  pipeOk : Bool
  /-- `CreateProcessA` succeeds. -/
  spawnOk : Bool
  /-- The successive `ReadFile` calls: `none` when the call fails (a broken pipe is how the
  end of the child's output shows), `some bytes` for the `bytesRead` bytes it delivered. -/
  reads : List (Option Str)

/-- What one `ExecuteCommand` call did. -/
structure ExecResult where
  /-- The returned `std::string`. -/
  ret : Str
  /-- The command line handed to `CreateProcessA`, `none` when it was never called. -/
  cmdLine : Option Str
  /-- A child process was started. -/
  spawned : Bool
deriving DecidableEq

def errPipe : Str := "Error: Failed to create pipe".toList
def errTooLong : Str := "Error: Command too long".toList
def errExecute : Str := "Error: Failed to execute command".toList

/-- The format prefix of `snprintf(cmdLine, sizeof(cmdLine), "cmd.exe /c %s", cmd)`. -/
def cmdPrefix : Str := "cmd.exe /c ".toList

/-- The size of `char cmdLine[1024]`. -/
def cmdLineSize : Nat := 1024

/-- The `int` returned by `snprintf`: the length of the whole formatted text, negative when
that length does not fit an `int`. -/
def snprintfRet (formatted : Str) : Int :=
  if formatted.length ≤ 2147483647 then (formatted.length : Int) else -1

/-- What `snprintf` leaves in a buffer of `size` bytes: at most `size - 1` characters. -/
def snprintfBuf (size : Nat) (formatted : Str) : Str := formatted.take (size - 1)

/-- The read loop: `while (ReadFile(...) && bytesRead > 0) { buffer[bytesRead] = 0;
result += buffer; }`. Appending a `char*` stops at the first NUL of the chunk. -/
def readLoop : List (Option Str) → Str
  | [] => []
  | none :: _ => []
  | some chunk :: rest => if chunk.length > 0 then cstr chunk ++ readLoop rest else []

/-- The clean-up loop at the end of `ExecuteCommand`, from index `i` on; `prev` is
`result[i-1]`, and `none` stands for `i == 0`. -/
def cleanLoop : Option Char → Str → Str
  | _, [] => []
  | prev, c :: cs =>
    if c = '\n' ∧ (prev = none ∨ prev ≠ some '\r') then '\r' :: '\n' :: cleanLoop (some c) cs
    else c :: cleanLoop (some c) cs

/-- The line-ending normalisation of `ExecuteCommand`: `cleaned` as computed from `result`. -/
def normalise (result : Str) : Str := cleanLoop none result

/-- `std::string ExecuteCommand(const char* cmd, bool wait)`. -/
def ExecuteCommand (os : OsReply) (cmd : Str) (wait : Bool) : ExecResult :=
  if !os.pipeOk then ⟨errPipe, none, false⟩
  else
    let formatted := cmdPrefix ++ cstr cmd
    let cmdLine := snprintfBuf cmdLineSize formatted
    let ret := snprintfRet formatted
    if ret < 0 ∨ ret ≥ (cmdLineSize : Int) then ⟨errTooLong, none, false⟩
    else
      let result : Str :=
        if os.spawnOk then (if wait then readLoop os.reads else [])
        else errExecute
      ⟨normalise result, some cmdLine, os.spawnOk⟩

/-- The text the read loop accumulated in `result` when the child was started: the captured
output when waiting, nothing when not waiting. -/
def capturedOutput (os : OsReply) (wait : Bool) : Str :=
  if wait then readLoop os.reads else []

/-- The normalisation as the specification words it: going through the input in order, a line
feed that is the first character, or whose preceding input character is not a carriage return,
gets a carriage return inserted before it; every other character is copied unchanged. -/
def insertCarriageReturns (s : Str) : Str :=
  (List.range s.length).flatMap fun i =>
    if s[i]? = some '\n' ∧ (i = 0 ∨ s[i - 1]? ≠ some '\r') then ['\r', '\n']
    else (s[i]?).toList

/-- Every line feed of `t` directly follows a carriage return, `p` being the character before
the first one of `t`. -/
def lfGuarded : Option Char → Str → Prop
  | _, [] => True
  | p, c :: cs => (c = '\n' → p = some '\r') ∧ lfGuarded (some c) cs

/-! ## `DetectDevices` -/

/-- `struct DeviceModel`. -/
structure DeviceModel where
  model : Str
  codename : Str
  description : Str

/-- The static table `s23_models`; the `nullptr` entry that ends it is the end of the list. -/
def s23_models : List DeviceModel :=
  [ ⟨"SM-S911B".toList, "dm1q".toList, "Galaxy S23 (Global)".toList⟩,
    ⟨"SM-S911U".toList, "dm1q".toList, "Galaxy S23 (USA)".toList⟩,
    ⟨"SM-S911W".toList, "dm1q".toList, "Galaxy S23 (Canada)".toList⟩,
    ⟨"SM-S911N".toList, "dm1q".toList, "Galaxy S23 (Korea)".toList⟩,
    ⟨"SM-S916B".toList, "dm2q".toList, "Galaxy S23+ (Global)".toList⟩,
    ⟨"SM-S916U".toList, "dm2q".toList, "Galaxy S23+ (USA)".toList⟩,
    ⟨"SM-S918B".toList, "dm3q".toList, "Galaxy S23 Ultra (Global)".toList⟩,
    ⟨"SM-S918U".toList, "dm3q".toList, "Galaxy S23 Ultra (USA)".toList⟩,
    ⟨"SM-S918N".toList, "dm3q".toList, "Galaxy S23 Ultra (Korea)".toList⟩ ]

/-- The operating system during one scan: its reply at each `ExecuteCommand` call site. -/
structure World where
  /-- The reply to `ExecuteCommand("adb devices -l")`. -/
  adbList : OsReply
  /-- The reply to the `k`-th model lookup of the scan (counted from 0), given its command. -/
  model : Nat → Str → OsReply
  /-- The reply to `ExecuteCommand("fastboot devices")`. -/
  fbList : OsReply

/-- The window state `DetectDevices` works on. -/
structure Gui where
  /-- The items of the list box `g_hDeviceList`, in display order (the box is not sorted). -/
  listBox : List Str
  /-- The arguments of the `AddLog` calls so far, in call order. -/
  logged : List Str

/-- The state of a running scan. -/
structure ScanState where
  /-- The items of the list box `g_hDeviceList`. -/
  listBox : List Str
  /-- The arguments of the `AddLog` calls so far. -/
  logged : List Str
  /-- The C strings passed to `ExecuteCommand` so far. -/
  commands : List Str
  /-- The number of model lookups so far. -/
  lookups : Nat
  /-- The local `foundADB`. -/
  foundADB : Bool

def adbListCmd : Str := "adb devices -l".toList
def fbListCmd : Str := "fastboot devices".toList
def markerDevice : Str := "device ".toList
def markerListOf : Str := "List of".toList
def markerFastboot : Str := "fastboot".toList
def tabStr : Str := "\t".toList
def whitespace : Str := " \t\r\n".toList
def lineBreaks : Str := "\r\n".toList
def tagAdb : Str := "[ADB] ".toList
def tagFastboot : Str := "[FASTBOOT] ".toList
def placeholder : Str := "No devices detected".toList
def s23Note : Str := "Samsung Galaxy S23 series detected: ".toList

/-- `SendMessageA(g_hDeviceList, LB_ADDSTRING, 0, (LPARAM)s.c_str())`: the box copies the C
string and shows it after the items it already has. -/
def lbAddString (box : List Str) (s : Str) : List Str := box ++ [cstr s]

/-- The trimming of `serial` in `DetectDevices`: cut to the span from the first to the last
non-whitespace character when both searches succeed, left as it is otherwise. -/
def trimSerial (serial : Str) : Str :=
  match find_first_not_of whitespace serial, find_last_not_of whitespace serial with
  | some start, some e => substr serial start (e - start + 1)
  | _, _ => serial

/-- The statement `model.erase(model.find_last_not_of("\r\n") + 1)`, in `size_t` arithmetic. -/
def stripModel (model : Str) : Str :=
  erase model ((toSizeT (find_last_not_of lineBreaks model) + 1) % 2 ^ 64)

/-- The loop `for (int i = 0; s23_models[i].model; i++)` over the rest of the table: the
`AddLog` argument it produces; it stops at the first entry found in `model`. -/
def s23Loop (model : Str) : List DeviceModel → List Str
  | [] => []
  | e :: rest =>
    if (find e.model model).isSome then [s23Note ++ e.description]
    else s23Loop model rest

/-- The text `"adb -s " + serial + " shell getprop ro.product.model"`. -/
def modelCmdOf (serial : Str) : Str :=
  "adb -s ".toList ++ serial ++ " shell getprop ro.product.model".toList

/-- The body of `while (std::getline(adbStream, line))`. -/
def adbLine (w : World) (st : ScanState) (line : Str) : ScanState :=
  if (find markerDevice line).isSome ∧ (find markerListOf line).isNone then
    match find markerDevice line with
    | none => st
    | some pos =>
      let device := tagAdb ++ substr line 0 pos
      let st := { st with listBox := lbAddString st.listBox device, foundADB := true }
      let serial := trimSerial (substr line 0 pos)
      if serial ≠ [] then
        let modelCmd := modelCmdOf serial
        let model :=
          stripModel (ExecuteCommand (w.model st.lookups (cstr modelCmd)) modelCmd true).ret
        { st with
          commands := st.commands ++ [cstr modelCmd]
          lookups := st.lookups + 1
          logged := st.logged ++ ["Found device: ".toList ++ model] ++ s23Loop model s23_models }
      else st
  else st

/-- The body of `while (std::getline(fbStream, line))`. -/
def fbLine (st : ScanState) (line : Str) : ScanState :=
  if (find markerFastboot line).isSome then
    match find tabStr line with
    | none => st
    | some pos =>
      let device := tagFastboot ++ substr line 0 pos
      let deviceId := substr line 0 pos
      { st with
        listBox := lbAddString st.listBox device
        logged := st.logged ++ ["Device in fastboot mode: ".toList ++ deviceId] }
  else st

/-- The local `adbResult` of `DetectDevices`. -/
def adbListOutput (w : World) : Str := (ExecuteCommand w.adbList adbListCmd true).ret

/-- The local `fbResult` of `DetectDevices`. -/
def fbListOutput (w : World) : Str := (ExecuteCommand w.fbList fbListCmd true).ret

/-- `void DetectDevices()`. The progress bar and the final `Sleep` are left out. -/
def DetectDevices (w : World) (gui : Gui) : ScanState :=
  let st0 : ScanState :=
    { listBox := []
      logged := gui.logged ++ ["Scanning for devices...".toList]
      commands := [adbListCmd]
      lookups := 0
      foundADB := false }
  let st1 := (getlines (adbListOutput w)).foldl (adbLine w) st0
  let st1 := { st1 with commands := st1.commands ++ [fbListCmd] }
  let st2 := (getlines (fbListOutput w)).foldl fbLine st1
  if st2.listBox.length = 0 then
    { st2 with
      logged := st2.logged ++ ["No devices found. Check USB connection and drivers.".toList]
      listBox := lbAddString st2.listBox placeholder }
  else
    { st2 with logged := st2.logged ++ ["Device scan complete".toList] }

/-- The text `line.substr(0, pos)` of a debug-bridge line the scan treats as a device, `none`
for a line it skips. -/
def adbDevice? (line : Str) : Option Str :=
  if (find markerDevice line).isSome ∧ (find markerListOf line).isNone then
    (find markerDevice line).map fun pos => substr line 0 pos
  else none

/-- The identifier `line.substr(0, pos)` of a bootloader-mode line the scan treats as a
device, `none` for a line it skips. -/
def fbDevice? (line : Str) : Option Str :=
  if (find markerFastboot line).isSome then
    (find tabStr line).map fun pos => substr line 0 pos
  else none

/-- The devices the debug-bridge pass extracts from a list output, in line order. -/
def adbDevices (text : Str) : List Str := (getlines text).filterMap adbDevice?

/-- The devices the bootloader pass extracts from a list output, in line order. -/
def fbDevices (text : Str) : List Str := (getlines text).filterMap fbDevice?

/-- The entries the two passes add to the list box, as `LB_ADDSTRING` stores them. -/
def scanEntries (adbOut fbOut : Str) : List Str :=
  ((adbDevices adbOut).map fun d => cstr (tagAdb ++ d)) ++
    (fbDevices fbOut).map fun d => cstr (tagFastboot ++ d)

/-- The list box a scan with the given two list outputs ends with. -/
def deviceList (adbOut fbOut : Str) : List Str :=
  if scanEntries adbOut fbOut = [] then [placeholder] else scanEntries adbOut fbOut

/-- The header line of the debug-bridge listing. -/
def adbHeader : Str := "List of devices attached".toList

/-- A debug-bridge list output: the header line, then the line `serial`, tab, `"device "`,
`rest`. -/
def adbListing (serial rest : Str) : Str :=
  "List of devices attached\n".toList ++ serial ++ "\tdevice ".toList ++ rest ++ "\n".toList

/-- A bootloader-mode list output of one line: `identifier`, tab, `"fastboot"`. -/
def fbListing (identifier : Str) : Str := identifier ++ "\tfastboot\n".toList

/-- A world whose tools print the given texts in one read each; every model lookup prints
`model`. -/
def printing (adbOut fbOut model : Str) : World :=
  { adbList := ⟨true, true, [some adbOut, none]⟩
    model := fun _ _ => ⟨true, true, [some model, none]⟩
    fbList := ⟨true, true, [some fbOut, none]⟩ }

/-! ## `AddLog` and the log window -/

/-- The fields of `SYSTEMTIME` that `AddLog` reads; each is a `WORD`. -/
structure SYSTEMTIME where
  wHour : Nat
  wMinute : Nat
  wSecond : Nat

/-- The conversion `%02d` of a non-negative `int`: its decimal digits, padded with zeros on
the left to a width of at least two. -/
def fmt02d (n : Nat) : Str :=
  List.replicate (2 - (Nat.toDigits 10 n).length) '0' ++ Nat.toDigits 10 n

/-- The text `"[%02d:%02d:%02d] "` formatted with hour, minute and second. -/
def timestampFormat (t : SYSTEMTIME) : Str :=
  "[".toList ++ fmt02d t.wHour ++ ":".toList ++ fmt02d t.wMinute ++ ":".toList ++
    fmt02d t.wSecond ++ "] ".toList

/-- The C string in `char timestamp[32]` after the `snprintf` of `AddLog`. -/
def timestampOf (t : SYSTEMTIME) : Str := cstr (snprintfBuf 32 (timestampFormat t))

/-- The heap string `*fullMsg` of `AddLog`: `timestamp + msg`. -/
def fullMsgOf (t : SYSTEMTIME) (msg : Str) : Str := timestampOf t ++ msg

/-- A posted `WM_UPDATE_LOG` message. -/
structure LogMsg where
  /-- The window handle it was posted with is the main window; `false` for `NULL`. -/
  toWindow : Bool
  /-- The string `lParam` points at. -/
  text : Str
deriving DecidableEq

/-- The part of the program state the log goes through. -/
structure LogState where
  /-- The global `g_hWnd` holds the main window; `false` while it is still `NULL`. -/
  g_hWnd : Bool
  /-- The posted `WM_UPDATE_LOG` messages not yet retrieved, oldest first. -/
  queue : List LogMsg
  /-- The text appended to the edit control `g_hLog`. -/
  logText : Str

/-- `void AddLog(const std::string& msg)`, with the local time `GetLocalTime` gives.
`PostMessage` is taken to succeed: it puts the message at the end of the queue of the
calling thread, with the handle `g_hWnd` has at that moment. -/
def AddLog (t : SYSTEMTIME) (msg : Str) (s : LogState) : LogState :=
  { s with queue := s.queue ++ [⟨s.g_hWnd, fullMsgOf t msg⟩] }

/-- The case `WM_UPDATE_LOG` of `WndProc`: the caret goes to the end of the text, then
`EM_REPLACESEL` inserts `msg->c_str()` and `"\r\n"` there. -/
def onUpdateLog (msg : Str) (logText : Str) : Str := logText ++ cstr msg ++ "\r\n".toList

/-- One turn of the message loop of `WinMain`: `GetMessage` takes the oldest message and
`DispatchMessage` hands it to `WndProc` when it is addressed to the window; a message posted
with a `NULL` handle reaches no window procedure. -/
def dispatch (s : LogState) : LogState :=
  match s.queue with
  | [] => s
  | m :: rest =>
    { s with
      queue := rest
      logText := if m.toWindow then onUpdateLog m.text s.logText else s.logText }

/-- The log text after the message loop has gone through the given queue. -/
def pump : List LogMsg → Str → Str
  | [], logText => logText
  | m :: rest, logText =>
    pump rest (if m.toWindow then onUpdateLog m.text logText else logText)

/-- The message loop runs until the queue is empty. -/
def drain (s : LogState) : LogState :=
  { s with queue := [], logText := pump s.queue s.logText }

/-- What happens to the log state, one event at a time. -/
inductive LogEvent where
  /-- A call `AddLog(msg)` at local time `t`. -/
  | addLog (t : SYSTEMTIME) (msg : Str)
  /-- One turn of the message loop. -/
  | turn
  /-- The assignment `g_hWnd = CreateWindowExA(...)` of `InitInstance`. -/
  | windowCreated

/-- The state after one event. -/
def step (s : LogState) : LogEvent → LogState
  | .addLog t msg => AddLog t msg s
  | .turn => dispatch s
  | .windowCreated => { s with g_hWnd := true }

/-- The state after a sequence of events. -/
def run (events : List LogEvent) (s : LogState) : LogState := events.foldl step s

/-- The submissions among the events, in order: local time and message of each `AddLog`. -/
def submissions : List LogEvent → List (SYSTEMTIME × Str)
  | [] => []
  | .addLog t msg :: rest => (t, msg) :: submissions rest
  | .turn :: rest => submissions rest
  | .windowCreated :: rest => submissions rest

/-- The start of a run: the three `AddLog` calls of the `WM_CREATE` case, made inside
`CreateWindowExA` while `g_hWnd` is still `NULL`; the assignment of `g_hWnd` in
`InitInstance`; three turns of the message loop; then the `AddLog` that opens
`DetectDevices` and one more turn. -/
def startupEvents : List LogEvent :=
  [ .addLog ⟨9, 5, 30⟩ "Samsung Galaxy S23 Device Manager v2.0.0 initialized".toList,
    .addLog ⟨9, 5, 30⟩
      "Please ensure ADB drivers are installed and device is connected via USB".toList,
    .addLog ⟨9, 5, 30⟩
      "For S23 series: Enable Developer Options > USB Debugging first".toList,
    .windowCreated, .turn, .turn, .turn,
    .addLog ⟨9, 5, 31⟩ "Scanning for devices...".toList,
    .turn ]

/-- The program state when `WinMain` starts: `g_hWnd` is `NULL`, nothing is posted, the log
is empty. -/
def initialLogState : LogState := ⟨false, [], []⟩

/-- Two decimal digits of a number below 100, with a leading zero below 10. -/
def twoDigits (n : Nat) : Str := [Nat.digitChar (n / 10), Nat.digitChar (n % 10)]

/-- The text of a line before its first tab. -/
def beforeFirstTab (line : Str) : Str := line.takeWhile fun c => c != '\t'

/-- The text ends in a carriage return or a line feed. -/
def endsInLineBreak (s : Str) : Prop := ∃ c, s.getLast? = some c ∧ c ∈ lineBreaks

/-! ## Theorems -/

/-! ### Line-ending normalisation -/

theorem cleanLoop_cons (prev : Option Char) (c : Char) (cs : Str) :
    cleanLoop prev (c :: cs) =
      (if c = '\n' ∧ prev ≠ some '\r' then ['\r', '\n'] else [c]) ++ cleanLoop (some c) cs := by
  by_cases h : c = '\n' ∧ prev ≠ some '\r'
  · have h2 : c = '\n' ∧ (prev = none ∨ prev ≠ some '\r') := ⟨h.1, Or.inr h.2⟩
    simp only [cleanLoop, if_pos h, if_pos h2, List.cons_append, List.nil_append]
  · have h2 : ¬ (c = '\n' ∧ (prev = none ∨ prev ≠ some '\r')) := by
      rintro ⟨h3, h4 | h4⟩
      · exact h ⟨h3, by simp [h4]⟩
      · exact h ⟨h3, h4⟩
    simp only [cleanLoop, if_neg h, if_neg h2, List.cons_append, List.nil_append]

/-- The piece of output the loop produces at index `i` of `s`, `prev` standing before `s`. -/
theorem cleanLoop_eq_flatMap (prev : Option Char) (s : Str) :
    cleanLoop prev s =
      (List.range s.length).flatMap fun i =>
        if s[i]? = some '\n' ∧ (if i = 0 then prev else s[i - 1]?) ≠ some '\r' then ['\r', '\n']
        else (s[i]?).toList := by
  induction s generalizing prev with
  | nil => simp [cleanLoop]
  | cons c cs ih =>
    rw [cleanLoop_cons, ih (some c), List.length_cons, List.range_succ_eq_map,
      List.flatMap_cons, List.flatMap_map]
    congr 1
    · by_cases h : c = '\n' ∧ prev ≠ some '\r'
      · simp [h]
      · simp [h]
    · apply List.flatMap_congr
      intro i _
      cases i with
      | zero => simp
      | succ j => simp

theorem lfGuarded_cleanLoop (prev : Option Char) (s : Str) :
    lfGuarded prev (cleanLoop prev s) := by
  induction s generalizing prev with
  | nil => simp [cleanLoop, lfGuarded]
  | cons c cs ih =>
    rw [cleanLoop_cons]
    by_cases h : c = '\n' ∧ prev ≠ some '\r'
    · obtain ⟨hc, _⟩ := h
      subst hc
      have h3 : ('\n' = '\n' ∧ prev ≠ some '\r') := ⟨rfl, by assumption⟩
      rw [if_pos h3]
      show lfGuarded prev ('\r' :: '\n' :: cleanLoop (some '\n') cs)
      refine ⟨fun hx => absurd hx (by decide), fun _ => rfl, ih (some '\n')⟩
    · simp only [if_neg h, List.cons_append, List.nil_append, lfGuarded]
      refine ⟨fun hc => by_contra fun hp => h ⟨hc, hp⟩, ih (some c)⟩

theorem cleanLoop_of_lfGuarded (prev : Option Char) (t : Str) (h : lfGuarded prev t) :
    cleanLoop prev t = t := by
  induction t generalizing prev with
  | nil => simp [cleanLoop]
  | cons c cs ih =>
    obtain ⟨h1, h2⟩ := h
    rw [cleanLoop_cons, ih (some c) h2]
    have : ¬ (c = '\n' ∧ prev ≠ some '\r') := fun hc => hc.2 (h1 hc.1)
    simp [this]

theorem lfGuarded_getElem (p : Option Char) (t : Str) (h : lfGuarded p t) (i : Nat)
    (hi : t[i]? = some '\n') : (if i = 0 then p else t[i - 1]?) = some '\r' := by
  induction t generalizing p i with
  | nil => simp at hi
  | cons c cs ih =>
    obtain ⟨h1, h2⟩ := h
    cases i with
    | zero =>
      simp at hi
      simpa using h1 hi
    | succ j =>
      have hj : cs[j]? = some '\n' := by simpa using hi
      have := ih (some c) h2 j hj
      cases j with
      | zero => simpa using this
      | succ k => simpa using this

/-- C3: the normalisation at the end of `ExecuteCommand` is the input with a carriage return
inserted before each line feed that is first or whose preceding input character is not a
carriage return, all other characters unchanged and in order; so in the output every line
feed directly follows a carriage return. -/
theorem normalise_inserts_carriage_returns (s : Str) :
    normalise s = insertCarriageReturns s ∧
      ∀ i, (normalise s)[i]? = some '\n' → 0 < i ∧ (normalise s)[i - 1]? = some '\r' := by
  constructor
  · unfold normalise insertCarriageReturns
    rw [cleanLoop_eq_flatMap]
    apply List.flatMap_congr
    intro i _
    by_cases hi : i = 0
    · subst hi; simp
    · simp [hi]
  · intro i hi
    have h := lfGuarded_getElem none (normalise s) (lfGuarded_cleanLoop none s) i hi
    by_cases h0 : i = 0
    · simp [h0] at h
    · simp only [if_neg h0] at h
      exact ⟨Nat.pos_of_ne_zero h0, h⟩

/-- C4: the normalisation of `ExecuteCommand` is idempotent: normalising normalised text
changes nothing, so a carriage return + line feed pair is never doubled. -/
theorem normalise_idempotent (s : Str) : normalise (normalise s) = normalise s :=
  cleanLoop_of_lfGuarded none (normalise s) (lfGuarded_cleanLoop none s)

/-! ### `ExecuteCommand` -/

theorem cstr_replicate_a (n : Nat) : cstr (List.replicate n 'a') = List.replicate n 'a' := by
  induction n with
  | zero => rfl
  | succ k ih =>
    have : cstr (List.replicate k 'a') = List.replicate k 'a' := ih
    unfold cstr at this ⊢
    rw [List.replicate_succ, List.takeWhile_cons, this]
    rfl

theorem strlen_replicate_a (n : Nat) : strlen (List.replicate n 'a') = n := by
  simp [strlen, cstr_replicate_a]

theorem snprintfRet_too_long (t : Str) (h : 1024 ≤ t.length) :
    snprintfRet t < 0 ∨ snprintfRet t ≥ (cmdLineSize : Int) := by
  unfold snprintfRet cmdLineSize
  split
  · right; push_cast; omega
  · left; omega

theorem snprintfRet_fits (t : Str) (h : t.length ≤ 1023) :
    ¬ (snprintfRet t < 0 ∨ snprintfRet t ≥ (cmdLineSize : Int)) := by
  unfold snprintfRet cmdLineSize
  rw [if_pos (by omega)]
  push_cast
  omega

theorem cmdPrefix_length : cmdPrefix.length = 11 := by decide

/-- C1, as the code has it: a command of 1013 or more characters never reaches process
creation, whatever the wait flag; the text returned is "Error: Command too long" when the pipe
was created, and "Error: Failed to create pipe" when it was not (the pipe is created before
the length is checked). -/
theorem ExecuteCommand_too_long (os : OsReply) (cmd : Str) (wait : Bool)
    (h : 1013 ≤ strlen cmd) :
    (ExecuteCommand os cmd wait).cmdLine = none ∧
      (ExecuteCommand os cmd wait).spawned = false ∧
      (ExecuteCommand os cmd wait).ret = (if os.pipeOk then errTooLong else errPipe) := by
  unfold ExecuteCommand
  cases hp : os.pipeOk with
  | false => simp
  | true =>
    have hl : 1024 ≤ (cmdPrefix ++ cstr cmd).length := by
      rw [List.length_append, cmdPrefix_length]
      unfold strlen at h
      omega
    simp [snprintfRet_too_long _ hl]

theorem ExecuteCommand_too_long_witness :
    1013 ≤ strlen (List.replicate 1013 'a') ∧
      (ExecuteCommand ⟨true, true, []⟩ (List.replicate 1013 'a') false).cmdLine = none ∧
      (ExecuteCommand ⟨true, true, []⟩ (List.replicate 1013 'a') false).spawned = false ∧
      (ExecuteCommand ⟨true, true, []⟩ (List.replicate 1013 'a') false).ret = errTooLong :=
  ⟨by rw [strlen_replicate_a],
    ExecuteCommand_too_long ⟨true, true, []⟩ (List.replicate 1013 'a') false
      (by rw [strlen_replicate_a])⟩

/-- C1 as stated fails: when `CreatePipe` fails, a command of 1013 characters gets
"Error: Failed to create pipe", not "Error: Command too long". -/
theorem ExecuteCommand_too_long_pipe_failure :
    1013 ≤ strlen (List.replicate 1013 'a') ∧
      (ExecuteCommand ⟨false, true, []⟩ (List.replicate 1013 'a') true).ret = errPipe ∧
      (ExecuteCommand ⟨false, true, []⟩ (List.replicate 1013 'a') true).ret ≠ errTooLong := by
  refine ⟨by rw [strlen_replicate_a], rfl, ?_⟩
  show errPipe ≠ errTooLong
  decide

theorem normalise_errExecute : normalise errExecute = errExecute := by decide

theorem formatted_fits (cmd : Str) (h : strlen cmd ≤ 1012) :
    (cmdPrefix ++ cstr cmd).length ≤ 1023 := by
  rw [List.length_append, cmdPrefix_length]
  unfold strlen at h
  omega

/-- The command line of a call whose command fits the buffer. -/
theorem ExecuteCommand_cmdLine_of_fits (os : OsReply) (cmd : Str) (wait : Bool)
    (h : strlen cmd ≤ 1012) :
    (ExecuteCommand os cmd wait).cmdLine =
      (if os.pipeOk then some (cmdPrefix ++ cstr cmd) else none) := by
  have hfit := snprintfRet_fits _ (formatted_fits cmd h)
  have htake : snprintfBuf cmdLineSize (cmdPrefix ++ cstr cmd) = cmdPrefix ++ cstr cmd := by
    unfold snprintfBuf cmdLineSize
    exact List.take_of_length_le (formatted_fits cmd h)
  unfold ExecuteCommand
  cases hp : os.pipeOk with
  | false => simp
  | true => simp only [Bool.not_true, Bool.false_eq_true, if_false, if_neg hfit, htake, if_true]

/-- The value returned by a call whose command fits the buffer. -/
theorem ExecuteCommand_ret_of_fits (os : OsReply) (cmd : Str) (wait : Bool)
    (h : strlen cmd ≤ 1012) :
    (ExecuteCommand os cmd wait).ret =
      (if os.pipeOk then
        (if os.spawnOk then normalise (capturedOutput os wait) else errExecute)
      else errPipe) := by
  have hfit := snprintfRet_fits _ (formatted_fits cmd h)
  unfold ExecuteCommand capturedOutput
  cases hp : os.pipeOk with
  | false => simp
  | true =>
    simp only [Bool.not_true, Bool.false_eq_true, if_false, if_neg hfit]
    cases hs : os.spawnOk with
    | false => simp [normalise_errExecute]
    | true => simp

/-- C2: a command of at most 1012 characters is never truncated: once the pipe exists, the
command line handed to `CreateProcessA` is "cmd.exe /c " followed by the whole command; the
value returned is the normalised captured output or one of the three failure texts
(which one is determined by the pipe and spawn outcomes), and these texts are pairwise
distinct. -/
theorem ExecuteCommand_fits (os : OsReply) (cmd : Str) (wait : Bool)
    (h : strlen cmd ≤ 1012) :
    (ExecuteCommand os cmd wait).cmdLine =
        (if os.pipeOk then some (cmdPrefix ++ cstr cmd) else none) ∧
      ((ExecuteCommand os cmd wait).ret = normalise (capturedOutput os wait) ∨
        (ExecuteCommand os cmd wait).ret = errPipe ∨
        (ExecuteCommand os cmd wait).ret = errExecute ∨
        (ExecuteCommand os cmd wait).ret = errTooLong) ∧
      (ExecuteCommand os cmd wait).ret =
        (if os.pipeOk then
          (if os.spawnOk then normalise (capturedOutput os wait) else errExecute)
        else errPipe) ∧
      (errPipe ≠ errExecute ∧ errPipe ≠ errTooLong ∧ errExecute ≠ errTooLong) := by
  have hret := ExecuteCommand_ret_of_fits os cmd wait h
  refine ⟨ExecuteCommand_cmdLine_of_fits os cmd wait h, ?_, hret, by decide, by decide,
    by decide⟩
  rw [hret]
  cases os.pipeOk with
  | false => exact Or.inr (Or.inl rfl)
  | true =>
    cases os.spawnOk with
    | false => exact Or.inr (Or.inr (Or.inl rfl))
    | true => exact Or.inl rfl

theorem ExecuteCommand_fits_witness :
    strlen "adb devices -l".toList ≤ 1012 ∧
      (ExecuteCommand ⟨true, true, [some "x\n".toList]⟩ "adb devices -l".toList true).cmdLine =
        some "cmd.exe /c adb devices -l".toList ∧
      (ExecuteCommand ⟨true, true, [some "x\n".toList]⟩ "adb devices -l".toList true).ret =
        "x\r\n".toList :=
  ⟨by decide,
    (ExecuteCommand_fits ⟨true, true, [some "x\n".toList]⟩ "adb devices -l".toList true
      (by decide)).1.trans (by decide),
    (ExecuteCommand_fits ⟨true, true, [some "x\n".toList]⟩ "adb devices -l".toList true
      (by decide)).2.2.1.trans (by decide)⟩

/-! ### The list box after a scan -/

theorem adbLine_listBox (w : World) (st : ScanState) (line : Str) :
    (adbLine w st line).listBox =
      st.listBox ++ ((adbDevice? line).map fun d => cstr (tagAdb ++ d)).toList := by
  unfold adbLine adbDevice?
  by_cases hc : (find markerDevice line).isSome ∧ (find markerListOf line).isNone
  · rw [if_pos hc, if_pos hc]
    cases hf : find markerDevice line with
    | none => simp
    | some pos =>
      by_cases hs : trimSerial (substr line 0 pos) ≠ []
      · simp [hs, lbAddString]
      · simp [hs, lbAddString]
  · rw [if_neg hc, if_neg hc]
    simp

theorem fbLine_listBox (st : ScanState) (line : Str) :
    (fbLine st line).listBox =
      st.listBox ++ ((fbDevice? line).map fun d => cstr (tagFastboot ++ d)).toList := by
  unfold fbLine fbDevice?
  by_cases hc : (find markerFastboot line).isSome
  · rw [if_pos hc, if_pos hc]
    cases hf : find tabStr line with
    | none => simp
    | some pos => simp [lbAddString]
  · rw [if_neg hc, if_neg hc]
    simp

theorem adbFold_listBox (w : World) (lines : List Str) (st : ScanState) :
    (lines.foldl (adbLine w) st).listBox =
      st.listBox ++ (lines.filterMap adbDevice?).map fun d => cstr (tagAdb ++ d) := by
  induction lines generalizing st with
  | nil => simp
  | cons l ls ih =>
    rw [List.foldl_cons, ih, adbLine_listBox]
    cases h : adbDevice? l <;> simp [List.filterMap_cons, h]

theorem fbFold_listBox (lines : List Str) (st : ScanState) :
    (lines.foldl fbLine st).listBox =
      st.listBox ++ (lines.filterMap fbDevice?).map fun d => cstr (tagFastboot ++ d) := by
  induction lines generalizing st with
  | nil => simp
  | cons l ls ih =>
    rw [List.foldl_cons, ih, fbLine_listBox]
    cases h : fbDevice? l <;> simp [List.filterMap_cons, h]

/-- The list box a scan leaves is a function of the two list outputs. -/
theorem DetectDevices_listBox (w : World) (gui : Gui) :
    (DetectDevices w gui).listBox = deviceList (adbListOutput w) (fbListOutput w) := by
  have key : ∀ st : ScanState, st.listBox = [] →
      ((getlines (fbListOutput w)).foldl fbLine
        { (getlines (adbListOutput w)).foldl (adbLine w) st with
          commands := ((getlines (adbListOutput w)).foldl (adbLine w) st).commands ++
            [fbListCmd] }).listBox = scanEntries (adbListOutput w) (fbListOutput w) := by
    intro st hst
    rw [fbFold_listBox]
    simp only [adbFold_listBox, hst, List.nil_append]
    rfl
  unfold DetectDevices deviceList
  simp only []
  rw [key _ rfl]
  by_cases he : scanEntries (adbListOutput w) (fbListOutput w) = []
  · have h0 : (scanEntries (adbListOutput w) (fbListOutput w)).length = 0 := by simp [he]
    rw [if_pos h0, if_pos he]
    show lbAddString _ placeholder = _
    rw [he]
    decide
  · have h0 : ¬ (scanEntries (adbListOutput w) (fbListOutput w)).length = 0 := by
      simpa using he
    rw [if_neg h0, if_neg he]

/-! ### No NUL byte survives `ExecuteCommand` -/

theorem cstr_eq_self (s : Str) (h : '\x00' ∉ s) : cstr s = s := by
  unfold cstr
  rw [List.takeWhile_eq_self_iff]
  intro c hc
  have : c ≠ '\x00' := fun e => h (e ▸ hc)
  simpa using this

theorem nul_not_mem_cstr (s : Str) : '\x00' ∉ cstr s := by
  intro h
  have := List.mem_takeWhile_imp h
  simp at this

theorem nul_not_mem_readLoop (reads : List (Option Str)) : '\x00' ∉ readLoop reads := by
  induction reads with
  | nil => simp [readLoop]
  | cons r rs ih =>
    cases r with
    | none => simp [readLoop]
    | some chunk =>
      unfold readLoop
      split
      · rw [List.mem_append]
        exact fun h => h.elim (nul_not_mem_cstr chunk) ih
      · simp

theorem mem_cleanLoop (p : Option Char) (s : Str) (c : Char) (h : c ∈ cleanLoop p s) :
    c = '\r' ∨ c ∈ s := by
  induction s generalizing p with
  | nil => simp [cleanLoop] at h
  | cons d ds ih =>
    rw [cleanLoop_cons] at h
    rw [List.mem_append] at h
    rcases h with h | h
    · split at h
      · rename_i hd
        simp at h
        rcases h with h | h
        · exact Or.inl h
        · right; rw [h, hd.1]; exact List.mem_cons_self _ _
      · simp at h
        right; rw [h]; exact List.mem_cons_self _ _
    · rcases ih (some d) h with h | h
      · exact Or.inl h
      · exact Or.inr (List.mem_cons_of_mem _ h)

theorem nul_not_mem_normalise (s : Str) (h : '\x00' ∉ s) : '\x00' ∉ normalise s := by
  intro hm
  rcases mem_cleanLoop none s _ hm with h1 | h1
  · exact absurd h1 (by decide)
  · exact h h1

theorem nul_not_mem_ExecuteCommand (os : OsReply) (cmd : Str) (wait : Bool) :
    '\x00' ∉ (ExecuteCommand os cmd wait).ret := by
  unfold ExecuteCommand
  split
  · decide
  · simp only []
    split
    · decide
    · apply nul_not_mem_normalise
      split
      · split
        · exact nul_not_mem_readLoop _
        · simp
      · decide

theorem mem_of_mem_getlines (s : Str) (l : Str) (hl : l ∈ getlines s) (c : Char) (hc : c ∈ l) :
    c ∈ s := by
  induction s generalizing l with
  | nil => simp [getlines] at hl
  | cons d ds ih =>
    unfold getlines at hl
    split at hl
    · rcases List.mem_cons.1 hl with h | h
      · subst h; simp at hc
      · exact List.mem_cons_of_mem _ (ih l h hc)
    · split at hl
      · have hl2 : l = [d] := by simpa using hl
        subst hl2
        have hc2 : c = d := by simpa using hc
        rw [hc2]; exact List.mem_cons_self _ _
      · rename_i l0 ls heq
        rcases List.mem_cons.1 hl with h | h
        · subst h
          rcases List.mem_cons.1 hc with h2 | h2
          · rw [h2]; exact List.mem_cons_self _ _
          · exact List.mem_cons_of_mem _
              (ih l0 (by rw [heq]; exact List.mem_cons_self _ _) h2)
        · exact List.mem_cons_of_mem _
            (ih l (by rw [heq]; exact List.mem_cons_of_mem _ h) hc)

theorem mem_of_mem_substr (s : Str) (a n : Nat) (c : Char) (h : c ∈ substr s a n) : c ∈ s :=
  List.mem_of_mem_drop (List.mem_of_mem_take h)

theorem mem_of_adbDevice? (line d : Str) (h : adbDevice? line = some d) (c : Char)
    (hc : c ∈ d) : c ∈ line := by
  unfold adbDevice? at h
  split at h
  · cases hf : find markerDevice line with
    | none => simp [hf] at h
    | some pos =>
      simp [hf] at h
      subst h
      exact mem_of_mem_substr _ _ _ _ hc
  · simp at h

theorem mem_of_fbDevice? (line d : Str) (h : fbDevice? line = some d) (c : Char)
    (hc : c ∈ d) : c ∈ line := by
  unfold fbDevice? at h
  split at h
  · cases hf : find tabStr line with
    | none => simp [hf] at h
    | some pos =>
      simp [hf] at h
      subst h
      exact mem_of_mem_substr _ _ _ _ hc
  · simp at h

theorem nul_not_mem_adbDevices (text : Str) (h : '\x00' ∉ text) (d : Str)
    (hd : d ∈ adbDevices text) : '\x00' ∉ d := by
  unfold adbDevices at hd
  obtain ⟨l, hl, hld⟩ := List.mem_filterMap.1 hd
  exact fun hc => h (mem_of_mem_getlines text l hl _ (mem_of_adbDevice? l d hld _ hc))

theorem nul_not_mem_fbDevices (text : Str) (h : '\x00' ∉ text) (d : Str)
    (hd : d ∈ fbDevices text) : '\x00' ∉ d := by
  unfold fbDevices at hd
  obtain ⟨l, hl, hld⟩ := List.mem_filterMap.1 hd
  exact fun hc => h (mem_of_mem_getlines text l hl _ (mem_of_fbDevice? l d hld _ hc))

theorem cstr_tagAdb (d : Str) (h : '\x00' ∉ d) : cstr (tagAdb ++ d) = tagAdb ++ d := by
  apply cstr_eq_self
  rw [List.mem_append]
  exact fun hm => hm.elim (by decide) h

theorem cstr_tagFastboot (d : Str) (h : '\x00' ∉ d) :
    cstr (tagFastboot ++ d) = tagFastboot ++ d := by
  apply cstr_eq_self
  rw [List.mem_append]
  exact fun hm => hm.elim (by decide) h

/-- The entries of a scan are the tagged identifiers themselves: nothing is cut at a NUL,
because the text `ExecuteCommand` returns has none. -/
theorem scanEntries_eq (w : World) :
    scanEntries (adbListOutput w) (fbListOutput w) =
      ((adbDevices (adbListOutput w)).map fun d => tagAdb ++ d) ++
        (fbDevices (fbListOutput w)).map fun d => tagFastboot ++ d := by
  unfold scanEntries
  congr 1
  · apply List.map_congr_left
    intro d hd
    exact cstr_tagAdb d (nul_not_mem_adbDevices _ (nul_not_mem_ExecuteCommand _ _ _) d hd)
  · apply List.map_congr_left
    intro d hd
    exact cstr_tagFastboot d (nul_not_mem_fbDevices _ (nul_not_mem_ExecuteCommand _ _ _) d hd)

theorem tagAdb_ne_placeholder (d : Str) : tagAdb ++ d ≠ placeholder := by
  intro h
  have := congrArg List.head? h
  simp [tagAdb, placeholder] at this

theorem tagFastboot_ne_placeholder (d : Str) : tagFastboot ++ d ≠ placeholder := by
  intro h
  have := congrArg List.head? h
  simp [tagFastboot, placeholder] at this

theorem tagAdb_ne_tagFastboot (d e : Str) : tagAdb ++ d ≠ tagFastboot ++ e := by
  intro h
  have := congrArg (fun l => l[1]?) h
  simp [tagAdb, tagFastboot] at this

theorem placeholder_not_mem_entries (a f : List Str) :
    placeholder ∉ (a.map fun d => tagAdb ++ d) ++ f.map fun d => tagFastboot ++ d := by
  intro h
  rcases List.mem_append.1 h with h | h
  · obtain ⟨d, _, hd⟩ := List.mem_map.1 h
    exact tagAdb_ne_placeholder d hd
  · obtain ⟨d, _, hd⟩ := List.mem_map.1 h
    exact tagFastboot_ne_placeholder d hd

/-- The list box a scan leaves, in terms of the devices the two passes extract. -/
theorem DetectDevices_listBox_cases (w : World) (gui : Gui) :
    (DetectDevices w gui).listBox =
      (if adbDevices (adbListOutput w) = [] ∧ fbDevices (fbListOutput w) = [] then [placeholder]
      else ((adbDevices (adbListOutput w)).map fun d => tagAdb ++ d) ++
        (fbDevices (fbListOutput w)).map fun d => tagFastboot ++ d) := by
  rw [DetectDevices_listBox]
  unfold deviceList
  rw [scanEntries_eq]
  by_cases h : adbDevices (adbListOutput w) = [] ∧ fbDevices (fbListOutput w) = []
  · rw [if_pos h]
    simp [h.1, h.2]
  · rw [if_neg h, if_neg]
    simpa using h

/-- C8: the device list a scan leaves is exactly the single placeholder entry
"No devices detected" if and only if neither pass extracted a device; the placeholder is in
the list only in that case, so a list with a device holds no placeholder. -/
theorem DetectDevices_placeholder_iff (w : World) (gui : Gui) :
    ((DetectDevices w gui).listBox = [placeholder] ↔
        adbDevices (adbListOutput w) = [] ∧ fbDevices (fbListOutput w) = []) ∧
      (placeholder ∈ (DetectDevices w gui).listBox ↔
        adbDevices (adbListOutput w) = [] ∧ fbDevices (fbListOutput w) = []) := by
  rw [DetectDevices_listBox_cases]
  by_cases h : adbDevices (adbListOutput w) = [] ∧ fbDevices (fbListOutput w) = []
  · rw [if_pos h]
    simp [h]
  · rw [if_neg h]
    have hmem := placeholder_not_mem_entries (adbDevices (adbListOutput w))
      (fbDevices (fbListOutput w))
    refine ⟨⟨fun he => ?_, fun h2 => absurd h2 h⟩, ⟨fun hm => absurd hm hmem, fun h2 => absurd h2 h⟩⟩
    exact absurd (he ▸ List.mem_singleton_self placeholder) hmem

/-- C9: when at least one device is extracted, the device list is the debug-bridge devices
in line order, each tagged "[ADB] ", followed by the bootloader-mode devices in line order,
each tagged "[FASTBOOT] "; its length is the sum of the two counts, and an identifier that
both passes extract is listed under each tag, in two different entries. -/
theorem DetectDevices_list_order (w : World) (gui : Gui)
    (h : adbDevices (adbListOutput w) ≠ [] ∨ fbDevices (fbListOutput w) ≠ []) :
    (DetectDevices w gui).listBox =
        ((adbDevices (adbListOutput w)).map fun d => tagAdb ++ d) ++
          ((fbDevices (fbListOutput w)).map fun d => tagFastboot ++ d) ∧
      (DetectDevices w gui).listBox.length =
        (adbDevices (adbListOutput w)).length + (fbDevices (fbListOutput w)).length ∧
      ∀ d, d ∈ adbDevices (adbListOutput w) → d ∈ fbDevices (fbListOutput w) →
        tagAdb ++ d ∈ (DetectDevices w gui).listBox ∧
          tagFastboot ++ d ∈ (DetectDevices w gui).listBox ∧
          tagAdb ++ d ≠ tagFastboot ++ d := by
  have hn : ¬ (adbDevices (adbListOutput w) = [] ∧ fbDevices (fbListOutput w) = []) := by
    rintro ⟨h1, h2⟩
    exact h.elim (fun k => k h1) (fun k => k h2)
  have hl := DetectDevices_listBox_cases w gui
  rw [if_neg hn] at hl
  refine ⟨hl, by rw [hl]; simp, ?_⟩
  intro d hda hdf
  rw [hl]
  refine ⟨?_, ?_, tagAdb_ne_tagFastboot d d⟩
  · exact List.mem_append_left _ (List.mem_map.2 ⟨d, hda, rfl⟩)
  · exact List.mem_append_right _ (List.mem_map.2 ⟨d, hdf, rfl⟩)

theorem DetectDevices_list_order_witness :
    (adbDevices (adbListOutput (printing
          "List of devices attached\nABC123 device usb:1\nABC123device usb:2\n".toList
          "ABC123\tfastboot\n".toList "SM-S918U\n".toList)) ≠ [] ∨
        fbDevices (fbListOutput (printing
          "List of devices attached\nABC123 device usb:1\nABC123device usb:2\n".toList
          "ABC123\tfastboot\n".toList "SM-S918U\n".toList)) ≠ []) ∧
      (DetectDevices (printing
          "List of devices attached\nABC123 device usb:1\nABC123device usb:2\n".toList
          "ABC123\tfastboot\n".toList "SM-S918U\n".toList) ⟨[], []⟩).listBox =
        ["[ADB] ABC123 ".toList, "[ADB] ABC123".toList, "[FASTBOOT] ABC123".toList] :=
  ⟨by decide,
    (DetectDevices_list_order (printing
      "List of devices attached\nABC123 device usb:1\nABC123device usb:2\n".toList
      "ABC123\tfastboot\n".toList "SM-S918U\n".toList) ⟨[], []⟩ (by decide)).1.trans
      (by decide)⟩

/-- C10: with the replies to the two list commands fixed, the device list a scan leaves does
not depend on what the model lookups return (nor on the earlier window state): it is a
function of the two list outputs alone, and every device the debug-bridge pass extracts is
listed whatever its lookup gave. -/
theorem DetectDevices_list_ignores_model (adbList fbList : OsReply)
    (m1 m2 : Nat → Str → OsReply) (g1 g2 : Gui) :
    (DetectDevices ⟨adbList, m1, fbList⟩ g1).listBox =
        (DetectDevices ⟨adbList, m2, fbList⟩ g2).listBox ∧
      (DetectDevices ⟨adbList, m1, fbList⟩ g1).listBox =
        deviceList (ExecuteCommand adbList adbListCmd true).ret
          (ExecuteCommand fbList fbListCmd true).ret ∧
      ∀ d, d ∈ adbDevices (ExecuteCommand adbList adbListCmd true).ret →
        tagAdb ++ d ∈ (DetectDevices ⟨adbList, m1, fbList⟩ g1).listBox := by
  refine ⟨?_, ?_, ?_⟩
  · rw [DetectDevices_listBox, DetectDevices_listBox]
    rfl
  · rw [DetectDevices_listBox]
    rfl
  · intro d hd
    have hne : adbDevices (adbListOutput ⟨adbList, m1, fbList⟩) ≠ [] :=
      List.ne_nil_of_mem hd
    have hl := DetectDevices_listBox_cases ⟨adbList, m1, fbList⟩ g1
    rw [if_neg (fun k => hne k.1)] at hl
    rw [hl]
    exact List.mem_append_left _ (List.mem_map.2 ⟨d, hd, rfl⟩)

/-! ### Substring search and the model table -/

/-- `s.find(pat) != npos` exactly when `pat` occurs in `s` as a contiguous substring. -/
theorem find_isSome_iff (pat s : Str) : (find pat s).isSome = true ↔ pat <:+: s := by
  induction s with
  | nil =>
    unfold find
    by_cases h : pat.isPrefixOf [] = true
    · rw [if_pos h]
      have : pat <+: [] := List.isPrefixOf_iff_prefix.1 h
      simpa using this.isInfix
    · rw [if_neg h]
      have hp : ¬ pat <+: [] := fun k => h (List.isPrefixOf_iff_prefix.2 k)
      simp only [Option.isSome_none, Bool.false_eq_true, false_iff]
      intro hi
      rw [List.infix_nil] at hi
      exact hp (hi ▸ List.prefix_refl _)
  | cons c cs ih =>
    unfold find
    rw [List.infix_cons_iff]
    by_cases h : pat.isPrefixOf (c :: cs) = true
    · rw [if_pos h]
      simpa using Or.inl (List.isPrefixOf_iff_prefix.1 h)
    · rw [if_neg h]
      have hp : ¬ pat <+: c :: cs := fun k => h (List.isPrefixOf_iff_prefix.2 k)
      have hm : (Option.map (fun x => x + 1) (find pat cs)).isSome = (find pat cs).isSome := by
        cases find pat cs <;> rfl
      rw [hm, ih]
      exact ⟨Or.inr, fun k => k.resolve_left hp⟩

theorem s23Loop_eq_find? (model : Str) (table : List DeviceModel) :
    s23Loop model table =
      ((table.find? fun e => decide (e.model <:+: model)).map
        fun e => s23Note ++ e.description).toList := by
  induction table with
  | nil => rfl
  | cons e rest ih =>
    unfold s23Loop
    rw [List.find?_cons]
    by_cases h : e.model <:+: model
    · have h1 : (find e.model model).isSome = true := (find_isSome_iff _ _).2 h
      rw [if_pos h1]
      simp [h]
    · have h1 : ¬ (find e.model model).isSome = true := fun k => h ((find_isSome_iff _ _).1 k)
      rw [if_neg h1, ih]
      simp [h]

/-- C7: for every model string, the table loop of `DetectDevices` logs at most one S23
annotation: the description of the first entry of `s23_models` whose model identifier occurs
in the model string, and nothing when no identifier occurs in it; each of the nine
identifiers, taken as the model string, gets its own entry's description ("SM-S918U" gives
"Galaxy S23 Ultra (USA)"). -/
theorem s23Loop_first_match (model : Str) :
    s23Loop model s23_models =
        ((s23_models.find? fun e => decide (e.model <:+: model)).map
          fun e => s23Note ++ e.description).toList ∧
      (s23Loop model s23_models).length ≤ 1 ∧
      (∀ e ∈ s23_models, s23Loop e.model s23_models = [s23Note ++ e.description]) ∧
      s23_models.length = 9 ∧
      s23Loop "SM-S918U".toList s23_models =
        ["Samsung Galaxy S23 series detected: Galaxy S23 Ultra (USA)".toList] := by
  refine ⟨s23Loop_eq_find? model s23_models, ?_, by decide, rfl, by decide⟩
  rw [s23Loop_eq_find?]
  cases List.find? (fun e => decide (e.model <:+: model)) s23_models <;> simp

/-- What the scan logs for a debug-bridge device whose trimmed serial is not empty: the
fetched model, then the annotation of the table loop. -/
theorem adbLine_logged (w : World) (st : ScanState) (line d : Str)
    (hd : adbDevice? line = some d) (hs : trimSerial d ≠ []) :
    (adbLine w st line).logged =
      st.logged ++
        ["Found device: ".toList ++ stripModel (ExecuteCommand
          (w.model st.lookups (cstr (modelCmdOf (trimSerial d))))
          (modelCmdOf (trimSerial d)) true).ret] ++
        s23Loop (stripModel (ExecuteCommand
          (w.model st.lookups (cstr (modelCmdOf (trimSerial d))))
          (modelCmdOf (trimSerial d)) true).ret) s23_models := by
  unfold adbDevice? at hd
  unfold adbLine
  by_cases hc : (find markerDevice line).isSome ∧ (find markerListOf line).isNone
  · rw [if_pos hc] at hd
    rw [if_pos hc]
    cases hf : find markerDevice line with
    | none => simp [hf] at hd
    | some pos =>
      rw [hf] at hd
      have hd2 : substr line 0 pos = d := by simpa using hd
      simp only [hd2, if_pos hs]
  · rw [if_neg hc] at hd
    cases hd

/-! ### Reading one device line -/

theorem getlines_append_lf (a b : Str) (h : '\n' ∉ a) :
    getlines (a ++ '\n' :: b) = a :: getlines b := by
  induction a with
  | nil => simp [getlines]
  | cons d ds ih =>
    have hd : d ≠ '\n' := fun e => h (e ▸ List.mem_cons_self _ _)
    have hds : '\n' ∉ ds := fun k => h (List.mem_cons_of_mem _ k)
    rw [List.cons_append, getlines, if_neg hd, ih hds]

theorem find_of_isPrefixOf (pat s : Str) (h : pat.isPrefixOf s = true) : find pat s = some 0 := by
  cases s with
  | nil => rw [find, if_pos h]
  | cons c cs => rw [find, if_pos h]

theorem find_eq_none_iff (pat s : Str) : find pat s = none ↔ ¬ pat <:+: s := by
  rw [← find_isSome_iff]
  cases find pat s <;> simp

theorem isPrefixOf_append_sep (pat a b : Str) (c : Char) (hc : c ∉ pat)
    (h : pat.isPrefixOf (a ++ c :: b) = true) : pat.isPrefixOf a = true := by
  induction pat generalizing a with
  | nil => simp
  | cons p ps ih =>
    have hp : p ≠ c := fun e => hc (e ▸ List.mem_cons_self _ _)
    have hps : c ∉ ps := fun k => hc (List.mem_cons_of_mem _ k)
    cases a with
    | nil =>
      simp [List.isPrefixOf, hp] at h
    | cons d ds =>
      simp only [List.cons_append, List.isPrefixOf, Bool.and_eq_true] at h ⊢
      exact ⟨h.1, ih ds hps h.2⟩

theorem mem_of_isPrefixOf (pat a : Str) (h : pat.isPrefixOf a = true) (x : Char)
    (hx : x ∈ pat) : x ∈ a :=
  (List.isPrefixOf_iff_prefix.1 h).subset hx

/-- Searching past a stretch `a` that lacks a character of the pattern, and a separator `c`
the pattern does not contain: the first occurrence lies after both. -/
theorem find_sep (pat a b : Str) (c x : Char) (hc : c ∉ pat) (hx : x ∈ pat) (hxa : x ∉ a) :
    find pat (a ++ c :: b) = (find pat b).map (· + (a.length + 1)) := by
  induction a with
  | nil =>
    have hn : ¬ pat.isPrefixOf (c :: b) = true := by
      intro h
      have := isPrefixOf_append_sep pat [] b c hc (by simpa using h)
      exact hxa (mem_of_isPrefixOf pat [] this x hx)
    rw [List.nil_append, find, if_neg hn]
    simp
  | cons d ds ih =>
    have hn : ¬ pat.isPrefixOf (d :: (ds ++ c :: b)) = true := by
      intro h
      have := isPrefixOf_append_sep pat (d :: ds) b c hc (by simpa using h)
      exact hxa (mem_of_isPrefixOf pat _ this x hx)
    have hxds : x ∉ ds := fun k => hxa (List.mem_cons_of_mem _ k)
    rw [List.cons_append, find, if_neg hn, ih hxds]
    cases find pat b <;> simp [Nat.add_assoc]

theorem substr_zero_append (a b : Str) : substr (a ++ b) 0 a.length = a := by
  simp [substr]

theorem find_last_not_of_all (set t : Str) (h : ∀ c ∈ t, c ∈ set) :
    find_last_not_of set t = none := by
  induction t with
  | nil => rfl
  | cons c cs ih =>
    have h1 := ih fun d hd => h d (List.mem_cons_of_mem _ hd)
    have h2 : c ∈ set := h c (List.mem_cons_self _ _)
    simp [find_last_not_of, h1, h2]

theorem find_last_not_of_append (set s t : Str) (hs : s ≠ []) (h : ∀ c ∈ s, c ∉ set)
    (ht : ∀ c ∈ t, c ∈ set) : find_last_not_of set (s ++ t) = some (s.length - 1) := by
  induction s with
  | nil => exact absurd rfl hs
  | cons c cs ih =>
    have hc : c ∉ set := h c (List.mem_cons_self _ _)
    cases cs with
    | nil =>
      have := find_last_not_of_all set t ht
      simp [find_last_not_of, this, hc]
    | cons d ds =>
      have := ih (by simp) fun e he => h e (List.mem_cons_of_mem _ he)
      rw [List.cons_append, find_last_not_of, this]
      simp

theorem find_first_not_of_head (set s : Str) (hs : s ≠ []) (h : ∀ c ∈ s, c ∉ set) (t : Str) :
    find_first_not_of set (s ++ t) = some 0 := by
  cases s with
  | nil => exact absurd rfl hs
  | cons c cs =>
    have hc : c ∉ set := h c (List.mem_cons_self _ _)
    simp [find_first_not_of, hc]

/-- Trimming removes trailing whitespace from a serial that has none inside. -/
theorem trimSerial_append (serial t : Str) (hs : serial ≠ [])
    (h : ∀ c ∈ serial, c ∉ whitespace) (ht : ∀ c ∈ t, c ∈ whitespace) :
    trimSerial (serial ++ t) = serial := by
  unfold trimSerial
  rw [find_first_not_of_head whitespace serial hs h t,
    find_last_not_of_append whitespace serial t hs h ht]
  have hl : 0 < serial.length := List.length_pos.2 hs
  have : serial.length - 1 - 0 + 1 = serial.length := by omega
  simp only [this]
  exact substr_zero_append serial t

theorem infix_of_infix_append (p : Char) (ps a rest : Str) (ha : p ∉ a)
    (h : (p :: ps) <:+: a ++ rest) : (p :: ps) <:+: rest := by
  induction a with
  | nil => simpa using h
  | cons d ds ih =>
    rw [List.cons_append, List.infix_cons_iff] at h
    rcases h with h | h
    · have hpd : p = d := (List.cons_prefix_cons.1 h).1
      exact absurd (hpd ▸ List.mem_cons_self _ _) ha
    · exact ih (fun k => ha (List.mem_cons_of_mem _ k)) h

theorem not_infix_concat (pat s : Str) (c : Char) (hp : pat ≠ []) (hc : c ∉ pat)
    (h : ¬ pat <:+: s) : ¬ pat <:+: s ++ [c] := by
  intro hi
  rcases List.infix_concat_iff.1 hi with hs | hs
  · rcases List.suffix_concat_iff.1 hs with he | ⟨t, ht, _⟩
    · exact hp he
    · exact hc (by rw [ht]; simp)
  · exact h hs

/-- A debug-bridge line `serial`, tab, `"device "`, rest: the scan takes it as a device, and
the text before the marker is the serial with the tab. -/
theorem adbDevice?_line (serial rest : Str) (h : ∀ c ∈ serial, c ∉ whitespace)
    (hr : ¬ markerListOf <:+: rest) :
    adbDevice? (serial ++ '\t' :: (markerDevice ++ rest)) = some (serial ++ ['\t']) := by
  have hsp : ' ' ∉ serial := fun k => h ' ' k (by decide)
  have h1 : find markerDevice (serial ++ '\t' :: (markerDevice ++ rest)) =
      some (serial.length + 1) := by
    rw [find_sep markerDevice serial _ '\t' ' ' (by decide) (by decide) hsp,
      find_of_isPrefixOf _ _ (List.isPrefixOf_iff_prefix.2 (List.prefix_append _ _))]
    simp
  have h2 : find markerListOf (serial ++ '\t' :: (markerDevice ++ rest)) = none := by
    rw [find_sep markerListOf serial _ '\t' ' ' (by decide) (by decide) hsp]
    have : find markerListOf (markerDevice ++ rest) = none := by
      rw [find_eq_none_iff]
      intro k
      exact hr (infix_of_infix_append 'L' "ist of".toList markerDevice rest (by decide) k)
    rw [this]
    rfl
  unfold adbDevice?
  rw [h1, h2]
  simp only [Option.isSome_some, Option.isNone_none, and_self, if_true, Option.map_some']
  have : serial ++ '\t' :: (markerDevice ++ rest) = (serial ++ ['\t']) ++ (markerDevice ++ rest) := by
    simp
  rw [this]
  have hl : serial.length + 1 = (serial ++ ['\t']).length := by simp
  rw [hl, substr_zero_append]

/-- The clean-up loop on a line without inner line feed: the line is kept, and its line feed
comes out with a carriage return before it, added unless the line already ends in one. -/
theorem cleanLoop_line (p : Option Char) (a rest : Str) (h : '\n' ∉ a) :
    ∃ x : Str, (x = [] ∨ x = ['\r']) ∧
      cleanLoop p (a ++ '\n' :: rest) = a ++ x ++ '\n' :: cleanLoop (some '\n') rest := by
  induction a generalizing p with
  | nil =>
    rw [List.nil_append, cleanLoop_cons]
    by_cases hp : p = some '\r'
    · exact ⟨[], Or.inl rfl, by simp [hp]⟩
    · exact ⟨['\r'], Or.inr rfl, by simp [hp]⟩
  | cons d ds ih =>
    have hd : d ≠ '\n' := fun e => h (e ▸ List.mem_cons_self _ _)
    obtain ⟨x, hx, he⟩ := ih (some d) fun k => h (List.mem_cons_of_mem _ k)
    refine ⟨x, hx, ?_⟩
    rw [List.cons_append, cleanLoop_cons, he]
    simp [hd]

theorem adbLine_of_none (w : World) (st : ScanState) (line : Str)
    (h : adbDevice? line = none) : adbLine w st line = st := by
  unfold adbDevice? at h
  unfold adbLine
  by_cases hc : (find markerDevice line).isSome ∧ (find markerListOf line).isNone
  · rw [if_pos hc] at h
    rw [if_pos hc]
    cases hf : find markerDevice line with
    | none => rfl
    | some pos => simp [hf] at h
  · rw [if_neg hc]

theorem adbLine_commands (w : World) (st : ScanState) (line : Str) :
    (adbLine w st line).commands =
      st.commands ++ ((adbDevice? line).bind fun d =>
        if trimSerial d ≠ [] then some (cstr (modelCmdOf (trimSerial d))) else none).toList := by
  cases hd : adbDevice? line with
  | none => simp [adbLine_of_none w st line hd]
  | some d =>
    unfold adbDevice? at hd
    unfold adbLine
    by_cases hc : (find markerDevice line).isSome ∧ (find markerListOf line).isNone
    · rw [if_pos hc] at hd
      rw [if_pos hc]
      cases hf : find markerDevice line with
      | none => simp [hf] at hd
      | some pos =>
        rw [hf] at hd
        have hd2 : substr line 0 pos = d := by simpa using hd
        simp only [hd2]
        by_cases hs : trimSerial d = []
        · simp [hs]
        · simp [hs]
    · rw [if_neg hc] at hd
      cases hd

theorem fbLine_commands (st : ScanState) (line : Str) :
    (fbLine st line).commands = st.commands := by
  unfold fbLine
  split
  · split <;> rfl
  · rfl

theorem fbFold_commands (lines : List Str) (st : ScanState) :
    (lines.foldl fbLine st).commands = st.commands := by
  induction lines generalizing st with
  | nil => rfl
  | cons l ls ih => rw [List.foldl_cons, ih, fbLine_commands]

theorem adbFold_commands (w : World) (lines : List Str) (st : ScanState) :
    (lines.foldl (adbLine w) st).commands =
      st.commands ++ (lines.filterMap adbDevice?).filterMap fun d =>
        if trimSerial d ≠ [] then some (cstr (modelCmdOf (trimSerial d))) else none := by
  induction lines generalizing st with
  | nil => simp
  | cons l ls ih =>
    rw [List.foldl_cons, ih, adbLine_commands]
    cases h : adbDevice? l with
    | none => simp [List.filterMap_cons, h]
    | some d =>
      by_cases hs : trimSerial d = []
      · simp [List.filterMap_cons, h, hs]
      · simp [List.filterMap_cons, h, hs]

/-- The commands a scan issues: the debug-bridge listing, one model lookup for each extracted
debug-bridge device whose trimmed serial is not empty, then the bootloader listing. -/
theorem DetectDevices_commands (w : World) (gui : Gui) :
    (DetectDevices w gui).commands =
      [adbListCmd] ++
        ((adbDevices (adbListOutput w)).filterMap fun d =>
          if trimSerial d ≠ [] then some (cstr (modelCmdOf (trimSerial d))) else none) ++
        [fbListCmd] := by
  unfold DetectDevices
  simp only []
  split
  · simp only [fbFold_commands, adbFold_commands]
    rfl
  · simp only [fbFold_commands, adbFold_commands]
    rfl

theorem find_char (c : Char) (a b : Str) (h : c ∉ a) :
    find [c] (a ++ c :: b) = some a.length := by
  induction a with
  | nil => simp [find, List.isPrefixOf]
  | cons d ds ih =>
    have hd : c ≠ d := fun e => h (e ▸ List.mem_cons_self _ _)
    rw [List.cons_append, find, ih fun k => h (List.mem_cons_of_mem _ k)]
    simp [List.isPrefixOf, hd]

/-- A bootloader-mode line `identifier`, tab, `"fastboot"`, rest: the scan takes it as a
device, with the text before the tab as its identifier. -/
theorem fbDevice?_line (identifier x : Str) (h : '\t' ∉ identifier) :
    fbDevice? (identifier ++ '\t' :: (markerFastboot ++ x)) = some identifier := by
  have h1 : (find markerFastboot (identifier ++ '\t' :: (markerFastboot ++ x))).isSome = true := by
    rw [find_isSome_iff]
    exact ⟨identifier ++ ['\t'], x, by simp⟩
  have h2 : find tabStr (identifier ++ '\t' :: (markerFastboot ++ x)) =
      some identifier.length := find_char '\t' identifier _ h
  unfold fbDevice?
  rw [if_pos h1, h2]
  simp only [Option.map_some']
  rw [substr_zero_append]

theorem adbListOutput_eq (w : World) (hp : w.adbList.pipeOk = true)
    (hs : w.adbList.spawnOk = true) : adbListOutput w = normalise (readLoop w.adbList.reads) := by
  have := ExecuteCommand_ret_of_fits w.adbList adbListCmd true (by decide)
  rw [hp, hs] at this
  simpa [capturedOutput] using this

theorem fbListOutput_eq (w : World) (hp : w.fbList.pipeOk = true)
    (hs : w.fbList.spawnOk = true) : fbListOutput w = normalise (readLoop w.fbList.reads) := by
  have := ExecuteCommand_ret_of_fits w.fbList fbListCmd true (by decide)
  rw [hp, hs] at this
  simpa [capturedOutput] using this

theorem fbDevices_one_line (identifier x : Str) (ht : '\t' ∉ identifier)
    (hlf : '\n' ∉ identifier) (hx : x = [] ∨ x = ['\r']) :
    fbDevices (identifier ++ '\t' :: (markerFastboot ++ x) ++ '\n' :: []) = [identifier] := by
  have hline : '\n' ∉ identifier ++ '\t' :: (markerFastboot ++ x) := by
    rcases hx with hx | hx <;> subst hx <;>
      simp [hlf, markerFastboot]
  unfold fbDevices
  rw [getlines_append_lf _ _ hline]
  simp [getlines, fbDevice?_line identifier x ht]

/-- C6: for an identifier without tab and line feed, a bootloader listing that is the line
identifier + "\tfastboot\n" makes the bootloader pass extract exactly one device, with that
identifier, whether the text is parsed as printed or as `ExecuteCommand` returns it; a scan
whose bootloader tool prints it lists "[FASTBOOT] " + identifier after the debug-bridge
entries. -/
theorem fb_pass_extracts_identifier (identifier : Str) (ht : '\t' ∉ identifier)
    (hlf : '\n' ∉ identifier) :
    fbDevices (fbListing identifier) = [identifier] ∧
      fbDevices (normalise (fbListing identifier)) = [identifier] ∧
      ∀ (w : World) (gui : Gui), w.fbList.pipeOk = true → w.fbList.spawnOk = true →
        readLoop w.fbList.reads = fbListing identifier →
        fbDevices (fbListOutput w) = [identifier] ∧
          (DetectDevices w gui).listBox =
            ((adbDevices (adbListOutput w)).map fun d => tagAdb ++ d) ++
              [tagFastboot ++ identifier] := by
  have hform : fbListing identifier =
      identifier ++ '\t' :: (markerFastboot ++ []) ++ '\n' :: [] := by
    simp [fbListing, markerFastboot]
  have hraw : fbDevices (fbListing identifier) = [identifier] := by
    rw [hform]
    exact fbDevices_one_line identifier [] ht hlf (Or.inl rfl)
  have hnorm : fbDevices (normalise (fbListing identifier)) = [identifier] := by
    have hline : '\n' ∉ identifier ++ '\t' :: markerFastboot := by
      simp [hlf, markerFastboot]
    have hform2 : fbListing identifier = (identifier ++ '\t' :: markerFastboot) ++ '\n' :: [] := by
      simp [fbListing, markerFastboot]
    obtain ⟨x, hx, he⟩ := cleanLoop_line none _ [] hline
    unfold normalise
    rw [hform2, he]
    have : identifier ++ '\t' :: markerFastboot ++ x ++ '\n' :: cleanLoop (some '\n') [] =
        identifier ++ '\t' :: (markerFastboot ++ x) ++ '\n' :: [] := by
      simp [cleanLoop]
    rw [this]
    exact fbDevices_one_line identifier x ht hlf hx
  refine ⟨hraw, hnorm, ?_⟩
  intro w gui hp hs hr
  have hout : fbDevices (fbListOutput w) = [identifier] := by
    rw [fbListOutput_eq w hp hs, hr]
    exact hnorm
  refine ⟨hout, ?_⟩
  rw [DetectDevices_listBox_cases, hout]
  simp

theorem fb_pass_extracts_identifier_witness :
    '\t' ∉ "R58N1234ABC".toList ∧ '\n' ∉ "R58N1234ABC".toList ∧
      fbDevices "R58N1234ABC\tfastboot\n".toList = ["R58N1234ABC".toList] ∧
      (DetectDevices (printing [] "R58N1234ABC\tfastboot\n".toList []) ⟨[], []⟩).listBox =
        ["[FASTBOOT] R58N1234ABC".toList] :=
  ⟨by decide, by decide,
    (fb_pass_extracts_identifier "R58N1234ABC".toList (by decide) (by decide)).1,
    ((fb_pass_extracts_identifier "R58N1234ABC".toList (by decide) (by decide)).2.2
      (printing [] "R58N1234ABC\tfastboot\n".toList []) ⟨[], []⟩ rfl rfl
      (by decide)).2.trans (by decide)⟩

theorem adbDevices_two_lines (serial rest x1 x2 : Str)
    (hws : ∀ c ∈ serial, c ∉ whitespace) (hlf : '\n' ∉ rest)
    (hlo : ¬ markerListOf <:+: rest) (hx1 : x1 = [] ∨ x1 = ['\r'])
    (hx2 : x2 = [] ∨ x2 = ['\r']) :
    adbDevices ((adbHeader ++ x1) ++
        '\n' :: ((serial ++ '\t' :: (markerDevice ++ (rest ++ x2))) ++ '\n' :: [])) =
      [serial ++ ['\t']] := by
  have hh : '\n' ∉ adbHeader ++ x1 := by
    rcases hx1 with hx | hx <;> subst hx <;> decide
  have hsn : '\n' ∉ serial := fun k => hws _ k (by decide)
  have hl : '\n' ∉ serial ++ '\t' :: (markerDevice ++ (rest ++ x2)) := by
    rcases hx2 with hx | hx <;> subst hx <;> simp [hsn, hlf, markerDevice]
  have hhead : adbDevice? (adbHeader ++ x1) = none := by
    rcases hx1 with hx | hx <;> subst hx <;> decide
  have hlo2 : ¬ markerListOf <:+: rest ++ x2 := by
    rcases hx2 with hx | hx
    · subst hx; simpa using hlo
    · subst hx
      exact not_infix_concat markerListOf rest '\r' (by decide) (by decide) hlo
  unfold adbDevices
  rw [getlines_append_lf _ _ hh, getlines_append_lf _ _ hl]
  simp [getlines, hhead, adbDevice?_line serial (rest ++ x2) hws hlo2]

theorem adbListing_form (serial rest : Str) :
    adbListing serial rest =
      adbHeader ++ '\n' :: ((serial ++ '\t' :: (markerDevice ++ rest)) ++ '\n' :: []) := by
  simp [adbListing, adbHeader, markerDevice]

theorem adbDevices_normalise_listing (serial rest : Str)
    (hws : ∀ c ∈ serial, c ∉ whitespace) (hlf : '\n' ∉ rest)
    (hlo : ¬ markerListOf <:+: rest) :
    adbDevices (normalise (adbListing serial rest)) = [serial ++ ['\t']] := by
  have hsn : '\n' ∉ serial := fun k => hws _ k (by decide)
  have hl : '\n' ∉ serial ++ '\t' :: (markerDevice ++ rest) := by
    simp [hsn, hlf, markerDevice]
  obtain ⟨x1, hx1, he1⟩ := cleanLoop_line none adbHeader
    ((serial ++ '\t' :: (markerDevice ++ rest)) ++ '\n' :: []) (by decide)
  obtain ⟨x2, hx2, he2⟩ := cleanLoop_line (some '\n')
    (serial ++ '\t' :: (markerDevice ++ rest)) [] hl
  unfold normalise
  rw [adbListing_form, he1, he2]
  have : adbHeader ++ x1 ++
      '\n' :: (serial ++ '\t' :: (markerDevice ++ rest) ++ x2 ++
        '\n' :: cleanLoop (some '\n') []) =
      (adbHeader ++ x1) ++
        '\n' :: ((serial ++ '\t' :: (markerDevice ++ (rest ++ x2))) ++ '\n' :: []) := by
    simp [cleanLoop]
  rw [this]
  exact adbDevices_two_lines serial rest x1 x2 hws hlf hlo hx1 hx2

theorem mem_adbListing (serial rest : Str) (c : Char) (h : c ∈ serial) :
    c ∈ adbListing serial rest := by
  simp [adbListing, h]

theorem nul_not_mem_modelCmdOf (serial : Str) (h : '\x00' ∉ serial) :
    '\x00' ∉ modelCmdOf serial := by
  unfold modelCmdOf
  intro k
  rcases List.mem_append.1 k with k | k
  · rcases List.mem_append.1 k with k | k
    · exact absurd k (by decide)
    · exact h k
  · exact absurd k (by decide)

/-- C5, as the code has it: the marker the scan looks for is "device " with a space after the
word. For a non-empty serial without whitespace and a rest without line feed and without
"List of", the listing made of the header line and the line serial + "\tdevice " + rest makes
the debug-bridge pass extract exactly one device: the text before the marker is serial + tab,
and its trimmed form, used for the model lookup, is serial. A scan whose debug-bridge tool
prints that listing shows "[ADB] " + serial + tab first and issues one model lookup, for
serial. -/
theorem adb_pass_extracts_serial (serial rest : Str) (hs : serial ≠ [])
    (hws : ∀ c ∈ serial, c ∉ whitespace) (hlf : '\n' ∉ rest)
    (hlo : ¬ markerListOf <:+: rest) :
    adbDevices (adbListing serial rest) = [serial ++ ['\t']] ∧
      adbDevices (normalise (adbListing serial rest)) = [serial ++ ['\t']] ∧
      trimSerial (serial ++ ['\t']) = serial ∧
      ∀ (w : World) (gui : Gui), w.adbList.pipeOk = true → w.adbList.spawnOk = true →
        readLoop w.adbList.reads = adbListing serial rest →
        (DetectDevices w gui).listBox =
            (tagAdb ++ (serial ++ ['\t'])) ::
              ((fbDevices (fbListOutput w)).map fun d => tagFastboot ++ d) ∧
          (DetectDevices w gui).commands = [adbListCmd, modelCmdOf serial, fbListCmd] := by
  have hraw : adbDevices (adbListing serial rest) = [serial ++ ['\t']] := by
    have := adbDevices_two_lines serial rest [] [] hws hlf hlo (Or.inl rfl) (Or.inl rfl)
    rw [adbListing_form]
    simpa using this
  have htrim : trimSerial (serial ++ ['\t']) = serial :=
    trimSerial_append serial ['\t'] hs hws (by decide)
  refine ⟨hraw, adbDevices_normalise_listing serial rest hws hlf hlo, htrim, ?_⟩
  intro w gui hp hsp hr
  have hout : adbDevices (adbListOutput w) = [serial ++ ['\t']] := by
    rw [adbListOutput_eq w hp hsp, hr]
    exact adbDevices_normalise_listing serial rest hws hlf hlo
  have hnul : '\x00' ∉ serial := by
    intro k
    have := mem_adbListing serial rest _ k
    rw [← hr] at this
    exact nul_not_mem_readLoop _ this
  constructor
  · rw [DetectDevices_listBox_cases, hout]
    simp
  · rw [DetectDevices_commands, hout]
    simp [htrim, hs, cstr_eq_self _ (nul_not_mem_modelCmdOf serial hnul)]

theorem adb_pass_extracts_serial_witness :
    "ABC123".toList ≠ [] ∧ (∀ c ∈ "ABC123".toList, c ∉ whitespace) ∧
      '\n' ∉ "product:dm3q".toList ∧ ¬ markerListOf <:+: "product:dm3q".toList ∧
      adbDevices "List of devices attached\nABC123\tdevice product:dm3q\n".toList =
        ["ABC123\t".toList] ∧
      trimSerial "ABC123\t".toList = "ABC123".toList ∧
      (DetectDevices (printing
          "List of devices attached\nABC123\tdevice product:dm3q\n".toList [] [])
        ⟨[], []⟩).commands =
        [adbListCmd, "adb -s ABC123 shell getprop ro.product.model".toList, fbListCmd] :=
  ⟨by decide, by decide, by decide, by decide,
    (adb_pass_extracts_serial "ABC123".toList "product:dm3q".toList (by decide) (by decide)
      (by decide) (by decide)).1,
    (adb_pass_extracts_serial "ABC123".toList "product:dm3q".toList (by decide) (by decide)
      (by decide) (by decide)).2.2.1,
    ((adb_pass_extracts_serial "ABC123".toList "product:dm3q".toList (by decide) (by decide)
      (by decide) (by decide)).2.2.2
      (printing "List of devices attached\nABC123\tdevice product:dm3q\n".toList [] [])
      ⟨[], []⟩ rfl rfl (by decide)).2⟩

/-- C5 as stated fails: the line "ABC123\tdevice\n" has no space after "device", so the scan
does not take it as a device, whether the listing is parsed as printed or as
`ExecuteCommand` returns it; the scan ends with the placeholder and issues no model lookup. -/
theorem adb_pass_skips_line_without_space :
    adbDevices "List of devices attached\nABC123\tdevice\n".toList = [] ∧
      adbDevices (normalise "List of devices attached\nABC123\tdevice\n".toList) = [] ∧
      (DetectDevices (printing "List of devices attached\nABC123\tdevice\n".toList []
        "SM-S918U\n".toList) ⟨[], []⟩).listBox = [placeholder] ∧
      (DetectDevices (printing "List of devices attached\nABC123\tdevice\n".toList []
        "SM-S918U\n".toList) ⟨[], []⟩).commands = [adbListCmd, fbListCmd] := by
  decide

/-! ### The timestamp of `AddLog` -/

theorem fmt02d_eq_twoDigits (n : Nat) (h : n < 100) : fmt02d n = twoDigits n := by
  interval_cases n <;> rfl

theorem nul_not_mem_twoDigits (n : Nat) (h : n < 100) : '\x00' ∉ twoDigits n := by
  interval_cases n <;> decide

/-- The timestamp of a time of day: nothing is cut by the 32-byte buffer. -/
theorem timestampOf_eq (t : SYSTEMTIME) (hh : t.wHour ≤ 23) (hm : t.wMinute ≤ 59)
    (hs : t.wSecond ≤ 59) :
    timestampOf t =
      "[".toList ++ twoDigits t.wHour ++ ":".toList ++ twoDigits t.wMinute ++ ":".toList ++
        twoDigits t.wSecond ++ "] ".toList := by
  have h1 := fmt02d_eq_twoDigits t.wHour (by omega)
  have h2 := fmt02d_eq_twoDigits t.wMinute (by omega)
  have h3 := fmt02d_eq_twoDigits t.wSecond (by omega)
  have n1 := nul_not_mem_twoDigits t.wHour (by omega)
  have n2 := nul_not_mem_twoDigits t.wMinute (by omega)
  have n3 := nul_not_mem_twoDigits t.wSecond (by omega)
  unfold timestampOf timestampFormat
  rw [h1, h2, h3]
  have hlen : ("[".toList ++ twoDigits t.wHour ++ ":".toList ++ twoDigits t.wMinute ++
      ":".toList ++ twoDigits t.wSecond ++ "] ".toList).length ≤ 32 - 1 := by
    simp [twoDigits]
  unfold snprintfBuf
  rw [List.take_of_length_le hlen]
  apply cstr_eq_self
  simp only [List.mem_append, not_or]
  exact ⟨⟨⟨⟨⟨⟨by decide, n1⟩, by decide⟩, n2⟩, by decide⟩, n3⟩, by decide⟩

/-- C12: for a local time with hour at most 23, minute and second at most 59, the entry
`AddLog` posts is "[HH:MM:SS] " followed by the message unchanged, each of HH, MM, SS being
the two decimal digits of the number (a leading zero below 10); the prefix has exactly 11
characters. -/
theorem AddLog_posts_timestamped_entry (t : SYSTEMTIME) (msg : Str) (s : LogState)
    (hh : t.wHour ≤ 23) (hm : t.wMinute ≤ 59) (hs : t.wSecond ≤ 59) :
    (AddLog t msg s).queue =
        s.queue ++ [⟨s.g_hWnd,
          "[".toList ++ twoDigits t.wHour ++ ":".toList ++ twoDigits t.wMinute ++ ":".toList ++
            twoDigits t.wSecond ++ "] ".toList ++ msg⟩] ∧
      ("[".toList ++ twoDigits t.wHour ++ ":".toList ++ twoDigits t.wMinute ++ ":".toList ++
        twoDigits t.wSecond ++ "] ".toList).length = 11 ∧
      (twoDigits t.wHour).length = 2 ∧ (twoDigits t.wMinute).length = 2 ∧
      (twoDigits t.wSecond).length = 2 := by
  refine ⟨?_, by simp [twoDigits], rfl, rfl, rfl⟩
  unfold AddLog fullMsgOf
  rw [timestampOf_eq t hh hm hs]

theorem AddLog_posts_timestamped_entry_witness :
    (9 : Nat) ≤ 23 ∧ (5 : Nat) ≤ 59 ∧ (30 : Nat) ≤ 59 ∧
      (AddLog ⟨9, 5, 30⟩ "Scanning for devices...".toList ⟨true, [], []⟩).queue =
        [⟨true, "[09:05:30] Scanning for devices...".toList⟩] :=
  ⟨by decide, by decide, by decide,
    (AddLog_posts_timestamped_entry ⟨9, 5, 30⟩ "Scanning for devices...".toList ⟨true, [], []⟩
      (by decide) (by decide) (by decide)).1.trans (by decide)⟩

/-! ### The bootloader pass, line by line -/

theorem find_tab_of_not_mem (line : Str) (h : '\t' ∉ line) : find tabStr line = none := by
  induction line with
  | nil => decide
  | cons c cs ih =>
    have hc : '\t' ≠ c := fun e => h (e ▸ List.mem_cons_self _ _)
    rw [find, ih fun k => h (List.mem_cons_of_mem _ k)]
    simp [tabStr, List.isPrefixOf, hc]

theorem split_at_first_tab (line : Str) (h : '\t' ∈ line) :
    ∃ b, line = beforeFirstTab line ++ '\t' :: b ∧ '\t' ∉ beforeFirstTab line := by
  induction line with
  | nil => simp at h
  | cons c cs ih =>
    by_cases hc : c = '\t'
    · subst hc
      exact ⟨cs, by simp [beforeFirstTab], by simp [beforeFirstTab]⟩
    · have hcs : '\t' ∈ cs := by
        rcases List.mem_cons.1 h with h1 | h1
        · exact absurd h1.symm hc
        · exact h1
      obtain ⟨b, hb, hn⟩ := ih hcs
      have hk : beforeFirstTab (c :: cs) = c :: beforeFirstTab cs := by
        simp [beforeFirstTab, List.takeWhile_cons, hc]
      refine ⟨b, ?_, ?_⟩
      · rw [hk, List.cons_append, ← hb]
      · rw [hk]
        intro k
        rcases List.mem_cons.1 k with k1 | k1
        · exact hc k1.symm
        · exact hn k1

/-- What the bootloader loop takes from one line. -/
theorem fbDevice?_eq (line : Str) :
    fbDevice? line =
      (if markerFastboot <:+: line ∧ '\t' ∈ line then some (beforeFirstTab line) else none) := by
  unfold fbDevice?
  by_cases hf : markerFastboot <:+: line
  · have h1 : (find markerFastboot line).isSome = true := (find_isSome_iff _ _).2 hf
    rw [if_pos h1]
    by_cases ht : '\t' ∈ line
    · obtain ⟨b, hb, hn⟩ := split_at_first_tab line ht
      have h2 : find tabStr line = some (beforeFirstTab line).length := by
        have := find_char '\t' (beforeFirstTab line) b hn
        rw [← hb] at this
        exact this
      have h3 : substr line 0 (beforeFirstTab line).length = beforeFirstTab line := by
        have := substr_zero_append (beforeFirstTab line) ('\t' :: b)
        rw [← hb] at this
        exact this
      rw [h2, if_pos ⟨hf, ht⟩]
      simp [h3]
    · rw [find_tab_of_not_mem line ht, if_neg fun k => ht k.2]
      rfl
  · have h1 : ¬ (find markerFastboot line).isSome = true := fun k =>
      hf ((find_isSome_iff _ _).1 k)
    rw [if_neg h1, if_neg fun k => hf k.1]

/-- C13, as the code has it: the bootloader loop takes a line only when it contains
"fastboot" and a tab. Such a line yields one entry, "[FASTBOOT] " and the text before its
first tab; a line without a tab, or without "fastboot", yields none. The devices of a
listing are these identifiers, in line order. -/
theorem fb_pass_takes_fastboot_lines (text : Str) :
    fbDevices text =
        (getlines text).filterMap (fun line =>
          if markerFastboot <:+: line ∧ '\t' ∈ line then some (beforeFirstTab line)
          else none) ∧
      ∀ (st : ScanState) (line : Str),
        (fbLine st line).listBox =
          st.listBox ++
            (if markerFastboot <:+: line ∧ '\t' ∈ line then
              [cstr (tagFastboot ++ beforeFirstTab line)]
            else []) := by
  constructor
  · unfold fbDevices
    congr 1
    funext line
    exact fbDevice?_eq line
  · intro st line
    rw [fbLine_listBox, fbDevice?_eq]
    by_cases h : markerFastboot <:+: line ∧ '\t' ∈ line
    · rw [if_pos h, if_pos h]; rfl
    · rw [if_neg h, if_neg h]; rfl

/-- C13 as stated fails: the line "R58N1234ABC\tdevice" contains a tab but not "fastboot", and
the bootloader pass takes no device from it; the scan ends with the placeholder. -/
theorem fb_pass_skips_tab_line_without_fastboot :
    '\t' ∈ "R58N1234ABC\tdevice".toList ∧
      getlines "R58N1234ABC\tdevice\n".toList = ["R58N1234ABC\tdevice".toList] ∧
      fbDevices "R58N1234ABC\tdevice\n".toList = [] ∧
      (DetectDevices (printing [] "R58N1234ABC\tdevice\n".toList []) ⟨[], []⟩).listBox =
        [placeholder] := by
  decide

/-! ### Stripping the model string -/

theorem find_last_not_of_concat (set l : Str) (c : Char) :
    find_last_not_of set (l ++ [c]) =
      (if c ∈ set then find_last_not_of set l else some l.length) := by
  induction l with
  | nil =>
    by_cases hc : c ∈ set
    · simp [find_last_not_of, hc]
    · simp [find_last_not_of, hc]
  | cons d ds ih =>
    rw [List.cons_append, find_last_not_of, ih]
    by_cases hc : c ∈ set
    · rw [if_pos hc, if_pos hc, find_last_not_of]
    · rw [if_neg hc, if_neg hc]
      rfl

theorem find_last_not_of_lt (set l : Str) (i : Nat) (h : find_last_not_of set l = some i) :
    i < l.length := by
  induction l generalizing i with
  | nil => simp [find_last_not_of] at h
  | cons d ds ih =>
    rw [find_last_not_of] at h
    cases hr : find_last_not_of set ds with
    | some j =>
      rw [hr] at h
      have := ih j hr
      have hi : j + 1 = i := by simpa using h
      rw [List.length_cons]
      omega
    | none =>
      rw [hr] at h
      rw [List.length_cons]
      have hi : d ∉ set ∧ 0 = i := by simpa using h
      omega

/-- The `size_t` arithmetic of `stripModel` never wraps for an index found, and wraps to 0
for `npos`. -/
theorem stripModel_eq (model : Str) (hlen : model.length < 2 ^ 64) :
    stripModel model =
      (match find_last_not_of lineBreaks model with
      | some i => model.take (i + 1)
      | none => []) := by
  unfold stripModel erase
  cases hr : find_last_not_of lineBreaks model with
  | none =>
    simp only [toSizeT, npos]
    rfl
  | some i =>
    have := find_last_not_of_lt lineBreaks model i hr
    simp only [toSizeT]
    rw [Nat.mod_eq_of_lt (by omega)]

theorem kept_concat (set l : Str) (c : Char) :
    (match find_last_not_of set (l ++ [c]) with
      | some i => (l ++ [c]).take (i + 1)
      | none => []) =
      (if c ∈ set then
        (match find_last_not_of set l with
        | some i => l.take (i + 1)
        | none => [])
      else l ++ [c]) := by
  rw [find_last_not_of_concat]
  by_cases hc : c ∈ set
  · rw [if_pos hc, if_pos hc]
    cases hr : find_last_not_of set l with
    | none => rfl
    | some i =>
      have := find_last_not_of_lt set l i hr
      exact List.take_append_of_le_length (by omega)
  · rw [if_neg hc, if_neg hc]
    simp

theorem kept_eq_rdropWhile (set l : Str) :
    (match find_last_not_of set l with
      | some i => l.take (i + 1)
      | none => []) = l.rdropWhile fun c => decide (c ∈ set) := by
  induction l using List.reverseRecOn with
  | nil => simp [find_last_not_of]
  | append_singleton l c ih =>
    rw [kept_concat, ih]
    by_cases hc : c ∈ set
    · rw [if_pos hc, List.rdropWhile_concat_pos _ _ _ (by simpa using hc)]
    · rw [if_neg hc, List.rdropWhile_concat_neg _ _ _ (by simpa using hc)]

theorem stripModel_eq_rdropWhile (model : Str) (hlen : model.length < 2 ^ 64) :
    stripModel model = model.rdropWhile fun c => decide (c ∈ lineBreaks) := by
  rw [stripModel_eq model hlen, kept_eq_rdropWhile]

theorem length_le_rdropWhile (p : Char → Bool) (l q : Str) (hq : q <+: l)
    (hlast : ∀ c, q.getLast? = some c → p c = false) :
    q.length ≤ (l.rdropWhile p).length := by
  induction l using List.reverseRecOn with
  | nil =>
    have : q = [] := List.prefix_nil.1 hq
    simp [this]
  | append_singleton l c ih =>
    rcases List.prefix_concat_iff.1 hq with h | h
    · subst h
      have hc : p c = false := hlast c (List.getLast?_concat l)
      rw [List.rdropWhile_concat_neg _ _ _ (by simp [hc])]
    · have := ih h
      by_cases hc : p c = true
      · rw [List.rdropWhile_concat_pos _ _ _ hc]
        exact this
      · rw [List.rdropWhile_concat_neg _ _ _ hc]
        have := h.length_le
        simp
        omega

/-- C15: for a text the model lookup returned (a `std::string`, so shorter than `npos`), the
model string the scan keeps is the longest prefix of the text that does not end in a
carriage return or line feed: it is a prefix, it does not end in one of the two, and no
prefix with that property is longer. It is empty when the text is empty or made of carriage
returns and line feeds only, and stripping it again changes nothing. -/
theorem stripModel_keeps_longest (model : Str) (hlen : model.length < 2 ^ 64) :
    stripModel model <+: model ∧
      ¬ endsInLineBreak (stripModel model) ∧
      (∀ q : Str, q <+: model → ¬ endsInLineBreak q →
        q.length ≤ (stripModel model).length) ∧
      ((∀ c ∈ model, c ∈ lineBreaks) → stripModel model = []) ∧
      stripModel (stripModel model) = stripModel model := by
  have hpre : stripModel model <+: model := by
    rw [stripModel_eq_rdropWhile model hlen]
    exact List.rdropWhile_prefix _ _
  refine ⟨hpre, ?_, ?_, ?_, ?_⟩
  · rw [stripModel_eq_rdropWhile model hlen]
    rintro ⟨c, hc, hmem⟩
    by_cases hne : model.rdropWhile (fun c => decide (c ∈ lineBreaks)) = []
    · rw [hne] at hc
      simp at hc
    · have hnot := List.rdropWhile_last_not (fun c => decide (c ∈ lineBreaks)) model hne
      rw [List.getLast?_eq_getLast _ hne] at hc
      have hcc : List.getLast _ hne = c := by simpa using hc
      rw [hcc] at hnot
      exact hnot (by simpa using hmem)
  · intro q hq hend
    rw [stripModel_eq_rdropWhile model hlen]
    apply length_le_rdropWhile _ model q hq
    intro c hc
    have : c ∉ lineBreaks := fun k => hend ⟨c, hc, k⟩
    simpa using this
  · intro hall
    rw [stripModel_eq_rdropWhile model hlen, List.rdropWhile_eq_nil_iff]
    intro c hc
    simpa using hall c hc
  · have hlen2 : (stripModel model).length < 2 ^ 64 :=
      Nat.lt_of_le_of_lt hpre.length_le hlen
    rw [stripModel_eq_rdropWhile _ hlen2, stripModel_eq_rdropWhile model hlen]
    exact List.rdropWhile_idempotent _ _

theorem stripModel_keeps_longest_witness :
    ("SM-S918U\r\n".toList).length < 2 ^ 64 ∧
      stripModel "SM-S918U\r\n".toList = "SM-S918U".toList ∧
      stripModel "SM-S918U\r\n".toList <+: "SM-S918U\r\n".toList ∧
      stripModel (stripModel "SM-S918U\r\n".toList) = stripModel "SM-S918U\r\n".toList :=
  ⟨by decide, by decide,
    (stripModel_keeps_longest "SM-S918U\r\n".toList (by decide)).1,
    (stripModel_keeps_longest "SM-S918U\r\n".toList (by decide)).2.2.2.2⟩

/-! ### The log queue -/

theorem pump_append (q1 q2 : List LogMsg) (logText : Str) :
    pump (q1 ++ q2) logText = pump q2 (pump q1 logText) := by
  induction q1 generalizing logText with
  | nil => rfl
  | cons m rest ih =>
    rw [List.cons_append, pump, pump, ih]

theorem pump_dispatch (s : LogState) :
    pump (dispatch s).queue (dispatch s).logText = pump s.queue s.logText := by
  unfold dispatch
  cases hq : s.queue with
  | nil => simp [hq]
  | cons m rest => simp [pump]

theorem cstr_append_of_not_mem (a b : Str) (h : '\x00' ∉ a) : cstr (a ++ b) = a ++ cstr b := by
  induction a with
  | nil => rfl
  | cons c cs ih =>
    have hc : c ≠ '\x00' := fun e => h (e ▸ List.mem_cons_self _ _)
    have := ih fun k => h (List.mem_cons_of_mem _ k)
    unfold cstr at this ⊢
    rw [List.cons_append, List.takeWhile_cons, this]
    simp [hc]

theorem cstr_fullMsgOf (t : SYSTEMTIME) (msg : Str) :
    cstr (fullMsgOf t msg) = timestampOf t ++ cstr msg :=
  cstr_append_of_not_mem _ _ (nul_not_mem_cstr _)

/-- While `g_hWnd` holds the window, every queued message is addressed to it, and what the
loop will have appended grows by one rendered entry per submission, in order. -/
theorem run_invariant (events : List LogEvent) (s : LogState) (hw : s.g_hWnd = true)
    (hq : ∀ m ∈ s.queue, m.toWindow = true) :
    (run events s).g_hWnd = true ∧ (∀ m ∈ (run events s).queue, m.toWindow = true) ∧
      pump (run events s).queue (run events s).logText =
        pump s.queue s.logText ++
          (submissions events).flatMap fun e => timestampOf e.1 ++ cstr e.2 ++ "\r\n".toList := by
  induction events generalizing s with
  | nil => exact ⟨hw, hq, by simp [run, submissions]⟩
  | cons ev rest ih =>
    cases ev with
    | addLog t msg =>
      have hw1 : (AddLog t msg s).g_hWnd = true := hw
      have hq1 : ∀ m ∈ (AddLog t msg s).queue, m.toWindow = true := by
        intro m hm
        rcases List.mem_append.1 hm with h | h
        · exact hq m h
        · have : m = ⟨s.g_hWnd, fullMsgOf t msg⟩ := by simpa using h
          rw [this]; exact hw
      have hp : pump (AddLog t msg s).queue (AddLog t msg s).logText =
          pump s.queue s.logText ++ (timestampOf t ++ cstr msg ++ "\r\n".toList) := by
        show pump (s.queue ++ [⟨s.g_hWnd, fullMsgOf t msg⟩]) s.logText = _
        rw [pump_append, hw]
        simp [pump, onUpdateLog, cstr_fullMsgOf]
      obtain ⟨h1, h2, h3⟩ := ih (AddLog t msg s) hw1 hq1
      refine ⟨h1, h2, ?_⟩
      show pump (run rest (AddLog t msg s)).queue (run rest (AddLog t msg s)).logText = _
      rw [h3, hp]
      simp [submissions]
    | turn =>
      have hw1 : (dispatch s).g_hWnd = true := by
        unfold dispatch
        cases s.queue <;> exact hw
      have hq1 : ∀ m ∈ (dispatch s).queue, m.toWindow = true := by
        intro m hm
        unfold dispatch at hm
        cases hs : s.queue with
        | nil => rw [hs] at hm; simp [hs] at hm
        | cons m0 r =>
          rw [hs] at hm
          exact hq m (by rw [hs]; exact List.mem_cons_of_mem _ hm)
      obtain ⟨h1, h2, h3⟩ := ih (dispatch s) hw1 hq1
      refine ⟨h1, h2, ?_⟩
      show pump (run rest (dispatch s)).queue (run rest (dispatch s)).logText = _
      rw [h3, pump_dispatch]
      simp [submissions]
    | windowCreated =>
      obtain ⟨h1, h2, h3⟩ := ih { s with g_hWnd := true } rfl hq
      exact ⟨h1, h2, h3⟩

/-- What the log does once `g_hWnd` holds the main window: for submissions interleaved in any
way with turns of the message loop, when the loop has emptied the queue the text appended is,
in submission order, each timestamped entry followed by "\r\n" (the handler shows an entry
up to its first NUL byte, and whole when it has none). -/
theorem appended_in_order_once_window_set (events : List LogEvent) (s : LogState)
    (hw : s.g_hWnd = true) (hq : s.queue = []) :
    (drain (run events s)).queue = [] ∧
      (drain (run events s)).logText =
        s.logText ++
          ((submissions events).flatMap fun e =>
            timestampOf e.1 ++ cstr e.2 ++ "\r\n".toList) ∧
      ((∀ e ∈ submissions events, '\x00' ∉ e.2) →
        (drain (run events s)).logText =
          s.logText ++
            ((submissions events).flatMap fun e => fullMsgOf e.1 e.2 ++ "\r\n".toList)) := by
  have hall : ∀ m ∈ s.queue, m.toWindow = true := by
    intro m hm
    rw [hq] at hm
    exact absurd hm (List.not_mem_nil m)
  have hinv := (run_invariant events s hw hall).2.2
  have hpump : pump s.queue s.logText = s.logText := by rw [hq, pump]
  have hdrain : ∀ x : LogState, (drain x).logText = pump x.queue x.logText := by
    intro x
    unfold drain
    rfl
  have hmain : (drain (run events s)).logText =
      s.logText ++
        ((submissions events).flatMap fun e =>
          timestampOf e.1 ++ cstr e.2 ++ "\r\n".toList) := by
    rw [hdrain, hinv, hpump]
  refine ⟨by unfold drain; rfl, hmain, ?_⟩
  intro hnul
  have hfm : ((submissions events).flatMap fun e =>
        timestampOf e.1 ++ cstr e.2 ++ "\r\n".toList) =
      ((submissions events).flatMap fun e => fullMsgOf e.1 e.2 ++ "\r\n".toList) := by
    apply List.flatMap_congr
    intro e he
    rw [cstr_eq_self e.2 (hnul e he)]
    simp only [fullMsgOf]
  rw [hmain, hfm]

/-- C11 fails on the code: the three entries `WM_CREATE` submits are posted while `g_hWnd` is
still `NULL`, so they reach no window procedure and are never appended, although the window
is created and the message loop goes through the whole queue; only the entry submitted
afterwards appears. The appended text is not the concatenation of the four submitted
entries. -/
theorem startup_log_entries_dropped :
    (submissions startupEvents).length = 4 ∧
      (drain (run startupEvents initialLogState)).queue = [] ∧
      (drain (run startupEvents initialLogState)).logText =
        "[09:05:31] Scanning for devices...\r\n".toList ∧
      (drain (run startupEvents initialLogState)).logText ≠
        (submissions startupEvents).flatMap fun e => fullMsgOf e.1 e.2 ++ "\r\n".toList := by
  decide

/-! ### The serial used for the model lookup -/

theorem find_first_not_of_all (set t : Str) (h : ∀ c ∈ t, c ∈ set) :
    find_first_not_of set t = none := by
  induction t with
  | nil => rfl
  | cons c cs ih =>
    have h1 := ih fun d hd => h d (List.mem_cons_of_mem _ hd)
    have h2 : c ∈ set := h c (List.mem_cons_self _ _)
    simp [find_first_not_of, h1, h2]

/-- The trimming leaves a text made of whitespace only as it is. -/
theorem trimSerial_of_all_whitespace (d : Str) (h : ∀ c ∈ d, c ∈ whitespace) :
    trimSerial d = d := by
  unfold trimSerial
  rw [find_first_not_of_all whitespace d h]

/-- C14 fails on the code: in the listing line "  device usb:1" only whitespace precedes the
marker, yet the serial is left untrimmed as two spaces, it is not empty, and the scan issues
the model lookup "adb -s    shell getprop ro.product.model" for it. -/
theorem adb_pass_looks_up_blank_serial :
    adbDevices "List of devices attached\n  device usb:1\n".toList = ["  ".toList] ∧
      trimSerial "  ".toList = "  ".toList ∧
      (DetectDevices (printing "List of devices attached\n  device usb:1\n".toList [] [])
        ⟨[], []⟩).commands =
        [adbListCmd, "adb -s    shell getprop ro.product.model".toList, fbListCmd] ∧
      (DetectDevices (printing "List of devices attached\n  device usb:1\n".toList [] [])
        ⟨[], []⟩).listBox = ["[ADB]   ".toList] := by
  decide

end FrpUnlock
